import Mathlib

/-!
Verification development for the multi-role discussion generator.

The repository's front end (src/unnamed/part_001 and src/unnamed/part_004,
two revisions of the same script) drives the turn-advancement protocol:
the client holds the transcript and the cursor, and issues one HTTP request
per utterance.  The Flask back end that answers those requests is not among
the source files, so the answering side (cursor arithmetic, completion
flag, document lookup) is modelled from the specification where a claim
needs it; every such definition is marked `Modelled from the spec`.

All definitions are executable; machine strings are Lean `String`s and
JSON objects are Lean structures with the source's field names.
-/

namespace Sentinel

/-- An `Utterance` record `{ role, content }` as held in the transcript
(`discussion` / `discussion_data` arrays of the scripts). -/
structure Utterance where
  role : String
  content : String
deriving DecidableEq

/-- Default used with `List.getD`. -/
def dummyUtt : Utterance := ⟨"", ""⟩

/-- Request body built by `generateNextTurn` (src/unnamed/part_001 lines
176-185) and POSTed to `/generate-next-turn`.  part_004's revision adds
inert generation-parameter fields (model, temperature, maxOutputTokens)
that do not affect the control flow and are omitted here. -/
structure GenRequest where
  topic : String
  roles : List String
  numTurns : Nat
  discussion : List Utterance
  currentTurn : Nat
  currentRoleIndex : Nat
  language : String
deriving DecidableEq

/-- Parsed JSON body of a `/generate-next-turn` response, with the fields
the client reads: `error`, `message`, `is_complete`, `next_turn`,
`next_role_index`. -/
structure TurnResponse where
  error : Option String
  message : Utterance
  is_complete : Bool
  next_turn : Nat
  next_role_index : Nat
deriving DecidableEq

/-- Outcome of one `fetch` round trip as the client's promise chain sees
it: either the `.catch` path (network failure, non-ok HTTP status, or an
unparseable body) or a parsed JSON response. -/
inductive FetchOutcome (ρ : Type) where
  | fail (msg : String)
  | ok (resp : ρ)
deriving DecidableEq

/-- How a client-side stepping loop ended. -/
inductive RunStatus where
  | completed
  | errored
  | outOfFuel
deriving DecidableEq

/-- Observable outcome of a stepping loop: the requests it issued in
order, the final transcript array, and how it stopped. -/
structure RunResult (ρ : Type) where
  requests : List ρ
  transcript : List Utterance
  status : RunStatus
deriving DecidableEq

/-- The request literal of src/unnamed/part_001 lines 177-185. -/
def mkGenRequest (topic : String) (roles : List String) (numTurns : Nat)
    (discussion : List Utterance) (currentTurn currentRoleIndex : Nat)
    (language : String) : GenRequest :=
  ⟨topic, roles, numTurns, discussion, currentTurn, currentRoleIndex, language⟩

/-- The fresh-generation stepping loop `generateNextTurn`
(src/unnamed/part_001 lines 150-267; identically src/unnamed/part_004
lines 180-304).  The server is an oracle `server`; the JS recursion
through `setTimeout` is modelled with a fuel argument.  On a failed fetch
or an `error` field the loop shows the error and stops; otherwise it
pushes `data.message`, stops if `data.is_complete`, and else re-invokes
itself at the returned cursor. -/
def generateNextTurn (server : GenRequest → FetchOutcome TurnResponse)
    (topic : String) (roles : List String) (numTurns : Nat)
    (language : String) :
    Nat → List Utterance → Nat → Nat → RunResult GenRequest
  | 0, discussion, _, _ => ⟨[], discussion, .outOfFuel⟩
  | fuel + 1, discussion, currentTurn, currentRoleIndex =>
    let req := mkGenRequest topic roles numTurns discussion currentTurn
      currentRoleIndex language
    match server req with
    | .fail _ => ⟨[req], discussion, .errored⟩
    | .ok data =>
      if data.error.isSome then ⟨[req], discussion, .errored⟩
      else
        let discussion2 := discussion ++ [data.message]
        if data.is_complete then ⟨[req], discussion2, .completed⟩
        else
          let rest := generateNextTurn server topic roles numTurns language
            fuel discussion2 data.next_turn data.next_role_index
          ⟨req :: rest.requests, rest.transcript, rest.status⟩

/-- Cursor advance.  Modelled from the spec (section 4.1 step 6): if
`roleIndex + 1 < roleCount` increment the role index keeping the turn,
else reset the role index and increment the turn. -/
def nextCursor (roleCount currentTurn currentRoleIndex : Nat) : Nat × Nat :=
  if currentRoleIndex + 1 < roleCount then (currentTurn, currentRoleIndex + 1)
  else (currentTurn + 1, 0)

/-- Modelled from the spec: the `/generate-next-turn` endpoint (the Flask
back end is not among the source files).  Per section 4.1 it wraps the
generated text as an utterance of the role `roles[cursor.roleIndex]`,
advances the cursor by `nextCursor`, and reports
`is_complete = (nextCursor.turn ≥ totalTurns)`.  The generated text is an
arbitrary function `gen` of the request (the Model Gateway is a black
box). -/
def specGenerateServer (gen : GenRequest → String) :
    GenRequest → FetchOutcome TurnResponse := fun req =>
  let nc := nextCursor req.roles.length req.currentTurn req.currentRoleIndex
  .ok { error := none
      , message := ⟨req.roles.getD req.currentRoleIndex "", gen req⟩
      , is_complete := decide (req.numTurns ≤ nc.1)
      , next_turn := nc.1
      , next_role_index := nc.2 }

/-- Completion flag of a response, `false` for a failed fetch. -/
def respComplete : FetchOutcome TurnResponse → Bool
  | .fail _ => false
  | .ok r => r.is_complete

/-- Request body of the grounded fresh-generation loop
`generateNextTurnWithDocument` (src/unnamed/part_001 lines 839-848): the
same shape as `GenRequest` plus the `use_document` flag. -/
structure DocRequest where
  topic : String
  roles : List String
  numTurns : Nat
  discussion : List Utterance
  currentTurn : Nat
  currentRoleIndex : Nat
  language : String
  use_document : Bool
deriving DecidableEq

/-- The grounded stepping loop `generateNextTurnWithDocument`
(src/unnamed/part_001 lines 812-935): identical control flow to
`generateNextTurn`, with `use_document` carried in every request. -/
def generateNextTurnWithDocument (server : DocRequest → FetchOutcome TurnResponse)
    (topic : String) (roles : List String) (numTurns : Nat)
    (language : String) (useDocument : Bool) :
    Nat → List Utterance → Nat → Nat → RunResult DocRequest
  | 0, discussion, _, _ => ⟨[], discussion, .outOfFuel⟩
  | fuel + 1, discussion, currentTurn, currentRoleIndex =>
    let req : DocRequest := ⟨topic, roles, numTurns, discussion, currentTurn,
      currentRoleIndex, language, useDocument⟩
    match server req with
    | .fail _ => ⟨[req], discussion, .errored⟩
    | .ok data =>
      if data.error.isSome then ⟨[req], discussion, .errored⟩
      else
        let discussion2 := discussion ++ [data.message]
        if data.is_complete then ⟨[req], discussion2, .completed⟩
        else
          let rest := generateNextTurnWithDocument server topic roles numTurns
            language useDocument fuel discussion2 data.next_turn data.next_role_index
          ⟨req :: rest.requests, rest.transcript, rest.status⟩

/-- Request body of the continuation loop, `requestData` of
`handleContinueDiscussion` (src/unnamed/part_001 lines 1235-1244).
part_004's revision adds inert generation-parameter fields. -/
structure ContRequest where
  discussion_data : List Utterance
  topic : String
  roles : List String
  num_additional_turns : Nat
  language : String
  use_document : Bool
  current_turn : Nat
  current_role_index : Nat
deriving DecidableEq

/-- Parsed JSON body of a `/continue-discussion` response.  Unlike the
fresh endpoint, `message` may be absent (the initialization reply of the
continuation protocol), which the client tests with `if (!data.message)`. -/
structure ContResponse where
  error : Option String
  message : Option Utterance
  is_complete : Bool
  next_turn : Nat
  next_role_index : Nat
deriving DecidableEq

/-- The continuation stepping loop `fetchNextContinuationTurn`
(src/unnamed/part_001 lines 1251-1362; identically src/unnamed/part_004
lines 2242-2353).  `requestData` is re-sent each round; when a response
carries no `message` the loop adopts the returned cursor and immediately
re-invokes itself without touching the transcript; when it carries one the
loop pushes it, stops on `is_complete`, and otherwise re-invokes with the
updated cursor and `discussion_data`. -/
def fetchNextContinuationTurn (server : ContRequest → FetchOutcome ContResponse) :
    Nat → ContRequest → List Utterance → RunResult ContRequest
  | 0, _, currentDiscussionData => ⟨[], currentDiscussionData, .outOfFuel⟩
  | fuel + 1, requestData, currentDiscussionData =>
    match server requestData with
    | .fail _ => ⟨[requestData], currentDiscussionData, .errored⟩
    | .ok data =>
      if data.error.isSome then ⟨[requestData], currentDiscussionData, .errored⟩
      else
        match data.message with
        | none =>
          let req2 := { requestData with
            current_turn := data.next_turn
            current_role_index := data.next_role_index }
          let rest := fetchNextContinuationTurn server fuel req2 currentDiscussionData
          ⟨requestData :: rest.requests, rest.transcript, rest.status⟩
        | some m =>
          let discussion2 := currentDiscussionData ++ [m]
          if data.is_complete then ⟨[requestData], discussion2, .completed⟩
          else
            let req2 := { requestData with
              current_turn := data.next_turn
              current_role_index := data.next_role_index
              discussion_data := discussion2 }
            let rest := fetchNextContinuationTurn server fuel req2 discussion2
            ⟨requestData :: rest.requests, rest.transcript, rest.status⟩

/-- The JS `Array.from(new Set(xs))` applied to the mapped role names
(src/unnamed/part_001 line 1218): a JS `Set` iterates in insertion order,
so this keeps the first occurrence of each element. -/
def jsSetFrom (xs : List String) : List String :=
  xs.foldl (fun acc r => if r ∈ acc then acc else acc ++ [r]) []

/-- Role re-derivation of `handleContinueDiscussion`: the distinct roles of
the collected transcript, `Array.from(new Set(discussionData.map(item => item.role)))`. -/
def deriveRoles (discussionData : List Utterance) : List String :=
  jsSetFrom (discussionData.map (·.role))

/-- Follows the spec's words, for comparison with `deriveRoles`: the
distinct role names in order of first occurrence (take the first name,
then recur on the rest with that name removed). -/
def firstOccurrenceList : List String → List String
  | [] => []
  | r :: rest => r :: firstOccurrenceList (rest.filter (· ≠ r))
termination_by l => l.length
decreasing_by
  simp only [List.length_cons]
  exact Nat.lt_succ_of_le (List.length_filter_le _ _)

/-- Outcome of the fresh-run form submission: either a validation error
shown by `showError`, or the call `generateDiscussion(topic, roles, numTurns)`. -/
inductive SubmitOutcome where
  | error (msg : String)
  | start (topic : String) (roles : List String) (numTurns : Int)
deriving DecidableEq

/-- The JS `String.prototype.trim`: strip whitespace from both ends. -/
def jsTrim (s : String) : String :=
  ⟨((s.data.dropWhile Char.isWhitespace).reverse.dropWhile
      Char.isWhitespace).reverse⟩

/-- The role list the form handlers collect:
`Array.from(roleInputs).map(input => input.value.trim()).filter(role => role)`
(src/unnamed/part_001 line 102). -/
def collectRoles (roleValues : List String) : List String :=
  (roleValues.map jsTrim).filter (· ≠ "")

/-- The fresh-run form handler `handleFormSubmit` (src/unnamed/part_001
lines 93-122): trim the topic, collect the non-empty role values, then
validate topic non-empty, at least 2 roles, and `numTurns` in `[1, 10]`
before starting generation.  `numTurns` is `parseInt` of a text field,
modelled as an integer. -/
def handleFormSubmit (topicRaw : String) (numTurns : Int)
    (roleValues : List String) : SubmitOutcome :=
  let topic := jsTrim topicRaw
  let roles := collectRoles roleValues
  if topic = "" then .error "ディスカッションテーマを入力してください"
  else if roles.length < 2 then .error "少なくとも2つの役割を追加してください"
  else if numTurns < 1 ∨ 10 < numTurns then
    .error "ターン数は1から10の間で設定してください"
  else .start topic roles numTurns

/-- The `addRoleInput` handler (src/unnamed/part_001 lines 360-379;
src/unnamed/part_004 lines 471-490): refuse when 6 role inputs already
exist, else append one more (part_004 lets it carry an initial value). -/
def addRoleInput (inputs : List String) (roleText : String) : List String :=
  if 6 ≤ inputs.length then inputs else inputs ++ [roleText]

/-- A user interaction with the role-roster widget: clicking the add
button or one of the per-input remove buttons. -/
inductive RoleOp where
  | add (text : String)
  | remove (i : Nat)
deriving DecidableEq

/-- One roster interaction.  `updateRemoveButtons` (src/unnamed/part_001
lines 389-397) disables every remove button while at most 2 inputs exist,
so a remove click is only possible with at least 3; `removeRoleInput`
then deletes the clicked input's group. -/
def applyRoleOp (inputs : List String) : RoleOp → List String
  | .add text => addRoleInput inputs text
  | .remove i => if inputs.length ≤ 2 then inputs else inputs.eraseIdx i

/-- A sequence of roster interactions starting from some input state. -/
def applyRoleOps (inputs : List String) (ops : List RoleOp) : List String :=
  ops.foldl applyRoleOp inputs

/-- Outcome of the grounded-run form handler: a validation error, the
grounded run `generateDiscussionWithDocument(topic, roles, numTurns)`, or
an ungrounded run (present in the type to state that the handler never
falls back to it; the source function has no such call). -/
inductive DocSubmitOutcome where
  | error (msg : String)
  | startGrounded (topic : String) (roles : List String) (numTurns : Int)
  | startUngrounded (topic : String) (roles : List String) (numTurns : Int)
deriving DecidableEq

/-- The grounded-run form handler `handleGenerateWithDocument`
(src/unnamed/part_001 lines 749-782): the same validations as
`handleFormSubmit`, then
`if (!sessionStorage.getItem('uploadedDocument'))` show the
document-unavailable error, else start grounded generation.
`sessionDocument` is the stored item; `none` and the empty string are
both falsy in JS. -/
def handleGenerateWithDocument (topicRaw : String) (numTurns : Int)
    (roleValues : List String) (sessionDocument : Option String) :
    DocSubmitOutcome :=
  let topic := jsTrim topicRaw
  let roles := collectRoles roleValues
  if topic = "" then .error "ディスカッションテーマを入力してください"
  else if roles.length < 2 then .error "少なくとも2つの役割を追加してください"
  else if numTurns < 1 ∨ 10 < numTurns then
    .error "ターン数は1から10の間で設定してください"
  else if sessionDocument.getD "" = "" then
    .error "有効なドキュメントがアップロードされていません。先にドキュメントをアップロードしてください。"
  else .startGrounded topic roles numTurns

/-- The part_004 revision of `handleGenerateWithDocument`
(src/unnamed/part_004 lines 1618-1675): after the same validations it asks
the server (`GET /get-document-text`) and proceeds only when the reply has
`success` and a non-empty `document_text`.  Modelled from the spec: the
endpoint is the Document Store `get` of the session's document (the back
end is not among the source files), so the reply carries the stored text
when one is present. -/
def handleGenerateWithDocumentChecked (topicRaw : String) (numTurns : Int)
    (roleValues : List String) (storedDocumentText : Option String) :
    DocSubmitOutcome :=
  let topic := jsTrim topicRaw
  let roles := collectRoles roleValues
  if topic = "" then .error "ディスカッションテーマを入力してください"
  else if roles.length < 2 then .error "少なくとも2つの役割を追加してください"
  else if numTurns < 1 ∨ 10 < numTurns then
    .error "ターン数は1から10の間で設定してください"
  else if storedDocumentText.getD "" = "" then
    .error "有効なドキュメントがアップロードされていません。先にドキュメントをアップロードしてください。"
  else .startGrounded topic roles numTurns

/-- Outcome of `handleContinueDiscussion`: a validation error or the
first `fetchNextContinuationTurn` invocation with the initial request. -/
inductive ContinueOutcome where
  | error (msg : String)
  | startRun (firstRequest : ContRequest)
deriving DecidableEq

/-- The continuation handler `handleContinueDiscussion`
(src/unnamed/part_001 lines 1190-1248): validate the additional turn count
in `[1, 5]`, collect the displayed transcript, re-derive the role list
from it, and start the continuation loop at cursor `{0, 0}`.
`discussionData` is the transcript collected from the page and `topic` the
topic recovered from the header. -/
def handleContinueDiscussion (additionalTurns : Int) (useDocument : Bool)
    (discussionData : List Utterance) (topic language : String) :
    ContinueOutcome :=
  if additionalTurns < 1 ∨ 5 < additionalTurns then
    .error "追加ターン数は1から5の間で指定してください。"
  else .startRun
    { discussion_data := discussionData
    , topic := topic
    , roles := deriveRoles discussionData
    , num_additional_turns := additionalTurns.toNat
    , language := language
    , use_document := useDocument
    , current_turn := 0
    , current_role_index := 0 }

/-- Request body of `/provide-guidance` (src/unnamed/part_001 lines
1413-1420): the collected transcript unchanged, plus the instruction as
its own field.  part_004's revision adds inert generation-parameter
fields. -/
structure GuidanceRequest where
  discussion_data : List Utterance
  topic : String
  instruction : String
  num_additional_turns : Nat
  use_document : Bool
  language : String
deriving DecidableEq

/-- Outcome of `handleProvideGuidance`: a validation error or the single
POST of the guidance request. -/
inductive GuidanceOutcome where
  | error (msg : String)
  | send (req : GuidanceRequest)
deriving DecidableEq

/-- The guidance handler `handleProvideGuidance` (src/unnamed/part_001
lines 1365-1501; src/unnamed/part_004 lines 2356-2511): validate the
instruction non-empty and the additional turn count in `[1, 5]`, then
issue one request carrying the collected transcript and the instruction;
the response's `data.discussion` replaces the current transcript. -/
def handleProvideGuidance (instructionRaw : String) (numAdditionalTurns : Int)
    (useDocument : Bool) (discussionData : List Utterance)
    (topic language : String) : GuidanceOutcome :=
  let instruction := jsTrim instructionRaw
  if instruction = "" then .error "指導内容を入力してください。"
  else if numAdditionalTurns < 1 ∨ 5 < numAdditionalTurns then
    .error "追加ターン数は1から5の間で指定してください。"
  else .send
    { discussion_data := discussionData
    , topic := topic
    , instruction := instruction
    , num_additional_turns := numAdditionalTurns.toNat
    , use_document := useDocument
    , language := language }

/-- Replacement of one character by `escapeHtml`'s map
(src/unnamed/part_001 lines 1543-1552). -/
def escapeChar (c : Char) : List Char :=
  if c = '&' then "&amp;".data
  else if c = '<' then "&lt;".data
  else if c = '>' then "&gt;".data
  else if c = '"' then "&quot;".data
  else if c = '\'' then "&#039;".data
  else [c]

/-- The `escapeHtml` function (src/unnamed/part_001 lines 1543-1552):
`text.replace(/[&<>"']/g, m => map[m])`.  part_004's revision
(lines 2660-2671) first coerces `undefined`/`null` to the empty string;
see `escapeHtmlChecked`. -/
def escapeHtml (text : String) : String :=
  ⟨text.data.flatMap escapeChar⟩

/-- The part_004 revision of `escapeHtml` (src/unnamed/part_004 lines
2660-2671), which returns the empty string on a missing value. -/
def escapeHtmlChecked (text : Option String) : String :=
  match text with
  | none => ""
  | some s => escapeHtml s

/-- Split on newline characters, as the `m` regex flag's line structure. -/
def splitLines : List Char → List (List Char)
  | [] => [[]]
  | c :: rest =>
    let r := splitLines rest
    if c = '\n' then [] :: r
    else
      match r with
      | [] => [[c]]
      | l :: ls => (c :: l) :: ls

/-- Join the rewritten lines back with newlines. -/
def joinLines : List (List Char) → List Char
  | [] => []
  | [l] => l
  | l :: l2 :: ls => l ++ '\n' :: joinLines (l2 :: ls)

/-- Apply a per-line rewrite, keeping the newline structure: the shape of
a global multiline regex replace whose pattern cannot cross lines. -/
def mapLines (f : List Char → List Char) (s : List Char) : List Char :=
  joinLines ((splitLines s).map f)

/-- A replace of the form `/^PRE (.*$)/gim` with template
`OPEN$1CLOSE`: when the line starts with the literal prefix, wrap the
remainder of the line. -/
def lineRule (pre openT closeT : List Char) (line : List Char) : List Char :=
  if pre.isPrefixOf line then openT ++ line.drop pre.length ++ closeT
  else line

/-- The earliest closing delimiter: returns the content up to it and the
text after it, scanning left to right, giving up at a character refused
by `bad` (a lazy `(.*?)` stops at the nearest close; `.` refuses a
newline, `[^backtick]` refuses a backtick). -/
def findClose (close : List Char) (bad : Char → Bool) :
    List Char → Option (List Char × List Char)
  | [] => none
  | c :: rest =>
    if close.isPrefixOf (c :: rest) then some ([], (c :: rest).drop close.length)
    else if bad c then none
    else
      match findClose close bad rest with
      | some (content, after) => some (c :: content, after)
      | none => none

/-- One pass of `pairRule`, with fuel bounding the number of scan steps
(each step consumes at least one character, so `l.length` fuel is always
enough and the fuel-exhausted fallback is unreachable). -/
def pairRuleGo (opn close : List Char) (bad : Char → Bool) (minLen : Nat)
    (openT closeT : List Char) : Nat → List Char → List Char
  | 0, l => l
  | _ + 1, [] => []
  | fuel + 1, c :: rest =>
    if opn ≠ [] ∧ opn.isPrefixOf (c :: rest) then
      match findClose close bad ((c :: rest).drop opn.length) with
      | some (content, tail) =>
        if minLen ≤ content.length then
          openT ++ content ++ closeT ++
            pairRuleGo opn close bad minLen openT closeT fuel tail
        else c :: pairRuleGo opn close bad minLen openT closeT fuel rest
      | none => c :: pairRuleGo opn close bad minLen openT closeT fuel rest
    else c :: pairRuleGo opn close bad minLen openT closeT fuel rest

/-- A replace of the form `/OPEN(...)CLOSE/g` with lazy content subject
to `bad` and a minimum content length (`(.*?)` allows the empty content,
`[^backtick]+` does not): scan left to right; at an opening delimiter whose
close is found with admissible content, emit the templates and continue
after the close, otherwise advance one character, as the JS regex engine
does on a failed match position. -/
def pairRule (opn close : List Char) (bad : Char → Bool) (minLen : Nat)
    (openT closeT : List Char) (l : List Char) : List Char :=
  pairRuleGo opn close bad minLen openT closeT l.length l

/-- One pass of `literalRule`, with fuel as in `pairRuleGo`. -/
def literalRuleGo (pat repl : List Char) : Nat → List Char → List Char
  | 0, l => l
  | _ + 1, [] => []
  | fuel + 1, c :: rest =>
    if pat ≠ [] ∧ pat.isPrefixOf (c :: rest) then
      repl ++ literalRuleGo pat repl fuel ((c :: rest).drop pat.length)
    else c :: literalRuleGo pat repl fuel rest

/-- A replace of a literal pattern, `/PAT/g` with a fixed template:
non-overlapping, left to right. -/
def literalRule (pat repl : List Char) (l : List Char) : List Char :=
  literalRuleGo pat repl l.length l

/-- First index at which `pat` occurs in `l`. -/
def firstIndexOfSub (pat : List Char) : List Char → Option Nat
  | [] => if pat.isPrefixOf ([] : List Char) then some 0 else none
  | c :: rest =>
    if pat.isPrefixOf (c :: rest) then some 0
    else (firstIndexOfSub pat rest).map (· + 1)

/-- Start index of the last occurrence of `pat` in `l`. -/
def lastIndexOfSub (pat : List Char) (l : List Char) : Option Nat :=
  ((List.range (l.length + 1)).filter
    (fun k => pat.isPrefixOf (l.drop k))).getLast?

/-- The replace `/(<li>.*<\/li>)/gim` with template `<ol>$1</ol>`: on each
line, a greedy match runs from the first `<li>` to the end of the last
`</li>` provided the latter starts after the former's end, and gets
wrapped in `<ol>` tags. -/
def wrapOlLine (line : List Char) : List Char :=
  match firstIndexOfSub "<li>".data line, lastIndexOfSub "</li>".data line with
  | some i, some j =>
    if i + 4 ≤ j then
      line.take i ++ "<ol>".data ++ ((line.drop i).take (j + 5 - i)) ++
        "</ol>".data ++ line.drop (j + 5)
    else line
  | _, _ => line

/-- The replace `/^---+$/gim` with `<hr>`: a line of three or more
hyphens and nothing else. -/
def hrLine (line : List Char) : List Char :=
  if 3 ≤ line.length ∧ line.all (· = '-') then "<hr>".data else line

/-- The replace `/^\d+\. (.*$)/gim` with `<li>$1</li>`: a line starting
with one or more digits, a period and a space. -/
def orderedItemLine (line : List Char) : List Char :=
  let digits := line.takeWhile (·.isDigit)
  if digits ≠ [] ∧ (". ").data.isPrefixOf (line.drop digits.length) then
    "<li>".data ++ line.drop (digits.length + 2) ++ "</li>".data
  else line

/-- The chain of substitutions of `markdownToHtml` (src/unnamed/part_001
lines 1510-1539), in source order: headings, bold, italic, code blocks,
inline code, numbered list items, joining and wrapping of list items,
bulleted list items, horizontal rules, then newlines to `<br>`. -/
def mdSubst (l : List Char) : List Char :=
  let s1 := mapLines (lineRule "### ".data "<h5>".data "</h5>".data) l
  let s2 := mapLines (lineRule "## ".data "<h4>".data "</h4>".data) s1
  let s3 := mapLines (lineRule "# ".data "<h3>".data "</h3>".data) s2
  let s4 := pairRule "**".data "**".data (· = '\n') 0
    "<strong>".data "</strong>".data s3
  let s5 := pairRule "*".data "*".data (· = '\n') 0
    "<em>".data "</em>".data s4
  let s6 := pairRule "```".data "```".data (· = '`') 1
    "<pre><code>".data "</code></pre>".data s5
  let s7 := pairRule "`".data "`".data (· = '`') 1
    "<code>".data "</code>".data s6
  let s8 := mapLines orderedItemLine s7
  let s9 := literalRule "</li>\n<li>".data "</li><li>".data s8
  let s10 := mapLines wrapOlLine s9
  let s11 := mapLines (lineRule "- ".data "<li>".data "</li>".data) s10
  let s12 := mapLines (lineRule "• ".data "<li>".data "</li>".data) s11
  let s13 := mapLines (lineRule "・".data "<li>".data "</li>".data) s12
  let s14 := mapLines hrLine s13
  s14.flatMap (fun c => if c = '\n' then "<br>".data else [c])

/-- The `markdownToHtml` function (src/unnamed/part_001 lines 1504-1540):
return the empty string on a missing or empty value, else HTML-escape the
whole input and run the substitution chain over the escaped text. -/
def markdownToHtml (markdown : Option String) : String :=
  match markdown with
  | none => ""
  | some s => if s = "" then "" else ⟨mdSubst (escapeHtml s).data⟩

/-- Every character any substitution template can introduce, together
with the newline kept by the line structure. -/
def templateChars : List Char :=
  ("<h5></h5><h4></h4><h3></h3><strong></strong><em></em>" ++
   "<pre><code></code></pre><li></li><ol></ol><hr><br>\n").data

/-- Default used with `List.getD` on request lists. -/
def dummyGenReq : GenRequest := ⟨"", [], 0, [], 0, 0, ""⟩

/-- Default used with `List.getD` on grounded request lists. -/
def dummyDocReq : DocRequest := ⟨"", [], 0, [], 0, 0, "", false⟩

/-- Default used with `List.getD` on continuation request lists. -/
def dummyContReq : ContRequest := ⟨[], "", [], 0, "", false, 0, 0⟩

/-- The request the fresh loop issues right after receiving `r` for `q`:
the transcript extended by exactly the returned utterance, at the returned
cursor, everything else unchanged. -/
def nextGenRequest (q : GenRequest) (r : TurnResponse) : GenRequest :=
  { q with discussion := q.discussion ++ [r.message]
         , currentTurn := r.next_turn
         , currentRoleIndex := r.next_role_index }

/-- The request the grounded loop issues right after receiving `r` for
`q`. -/
def nextDocRequest (q : DocRequest) (r : TurnResponse) : DocRequest :=
  { q with discussion := q.discussion ++ [r.message]
         , currentTurn := r.next_turn
         , currentRoleIndex := r.next_role_index }

/-- The request the continuation loop issues right after receiving `r`
for `q`: the returned cursor is adopted, and `discussion_data` is extended
by exactly the utterances the response carried (none for an
initialization reply, one otherwise). -/
def nextContRequest (q : ContRequest) (r : ContResponse) : ContRequest :=
  match r.message with
  | none =>
    { q with current_turn := r.next_turn, current_role_index := r.next_role_index }
  | some m =>
    { q with current_turn := r.next_turn, current_role_index := r.next_role_index
           , discussion_data := q.discussion_data ++ [m] }

/-- Whether a continuation response is the utterance-free initialization
reply the client recognizes with `if (!data.message)`. -/
def isInitReply : FetchOutcome ContResponse → Bool
  | .fail _ => false
  | .ok r => r.error.isNone && r.message.isNone

/-- Concrete two-role prior transcript used in concrete runs. -/
def witnessPrior : List Utterance :=
  [⟨"営業部長", "現状を説明します。"⟩, ⟨"開発責任者", "補足します。"⟩]

/-- Concrete initial continuation request over `witnessPrior`, at cursor
`{0, 0}`. -/
def witnessContReq0 : ContRequest :=
  ⟨witnessPrior, "新製品", ["営業部長", "開発責任者"], 1, "ja", false, 0, 0⟩

/-- A concrete continuation endpoint that answers the initial request
with the utterance-free initialization reply and every other request with
a terminal utterance-bearing reply. -/
def witnessContServer : ContRequest → FetchOutcome ContResponse := fun q =>
  if q = witnessContReq0 then .ok ⟨none, none, false, 0, 1⟩
  else .ok ⟨none, some ⟨"営業部長", "続きの発言です。"⟩, true, 0, 1⟩

/-! ## Helper lemmas on role derivation -/

theorem jsSetFrom_go (l acc : List String) :
    l.foldl (fun acc r => if r ∈ acc then acc else acc ++ [r]) acc =
      acc ++ firstOccurrenceList (l.filter (fun r => decide (r ∉ acc))) := by
  induction l generalizing acc with
  | nil => simp [firstOccurrenceList]
  | cons x l ih =>
    by_cases hx : x ∈ acc
    · simpa [hx] using ih acc
    · have hpred : ∀ a : String,
          (decide (a ∉ acc ++ [x])) = ((decide (¬a = x)) && (decide (a ∉ acc))) := by
        intro a
        by_cases h1 : a ∈ acc <;> by_cases h2 : a = x <;>
          simp [h1, h2, List.mem_append]
      calc (x :: l).foldl (fun acc r => if r ∈ acc then acc else acc ++ [r]) acc
          = l.foldl (fun acc r => if r ∈ acc then acc else acc ++ [r]) (acc ++ [x]) := by
            simp [hx]
        _ = (acc ++ [x]) ++
              firstOccurrenceList (l.filter (fun r => decide (r ∉ acc ++ [x]))) := ih _
        _ = acc ++ (x :: firstOccurrenceList
              ((l.filter (fun r => decide (r ∉ acc))).filter (fun r => decide (¬r = x)))) := by
            rw [List.append_assoc, List.singleton_append, List.filter_filter]
            exact congrArg (fun t => acc ++ (x :: firstOccurrenceList t))
              (List.filter_congr fun a _ => hpred a)
        _ = acc ++ firstOccurrenceList ((x :: l).filter (fun r => decide (r ∉ acc))) := by
            simp [hx, firstOccurrenceList]

theorem jsSetFrom_eq_firstOccurrenceList (l : List String) :
    jsSetFrom l = firstOccurrenceList l := by
  have := jsSetFrom_go l []
  simpa [jsSetFrom] using this

theorem firstOccurrenceList_mem (l : List String) (a : String) :
    a ∈ firstOccurrenceList l ↔ a ∈ l := by
  induction l using firstOccurrenceList.induct with
  | case1 => simp [firstOccurrenceList]
  | case2 r rest ih =>
    rw [firstOccurrenceList]
    simp only [List.mem_cons, ih, List.mem_filter]
    constructor
    · rintro (h | ⟨h1, _⟩)
      · exact Or.inl h
      · exact Or.inr h1
    · rintro (h | h)
      · exact Or.inl h
      · by_cases ha : a = r
        · exact Or.inl ha
        · exact Or.inr ⟨h, by simpa using ha⟩

theorem firstOccurrenceList_nodup (l : List String) :
    (firstOccurrenceList l).Nodup := by
  induction l using firstOccurrenceList.induct with
  | case1 => simp [firstOccurrenceList]
  | case2 r rest ih =>
    rw [firstOccurrenceList]
    refine List.nodup_cons.mpr ⟨?_, ih⟩
    intro hmem
    have := (firstOccurrenceList_mem _ _).mp hmem
    simp [List.mem_filter] at this

/-! ## Claim C7: continuation re-derives the role list -/

/-- C7: when a continuation run does not receive an explicit role list,
`handleContinueDiscussion` re-derives it as the distinct role names of the
carried-in transcript in order of first occurrence: the request's `roles`
field is `deriveRoles` of the collected transcript, `deriveRoles` agrees
with the first-occurrence description, is duplicate-free, and contains
exactly the role names occurring in the transcript (including pseudo-roles
such as a system entry, which need not be roster roles). -/
theorem C7_continuation_role_rederivation :
    (∀ (n : Int) (useDoc : Bool) (d : List Utterance) (topic lang : String)
        (req : ContRequest),
        handleContinueDiscussion n useDoc d topic lang =
          ContinueOutcome.startRun req →
        req.roles = deriveRoles d) ∧
    (∀ d : List Utterance,
        deriveRoles d = firstOccurrenceList (d.map (·.role))) ∧
    (∀ d : List Utterance, (deriveRoles d).Nodup) ∧
    (∀ (d : List Utterance) (r : String),
        r ∈ deriveRoles d ↔ r ∈ d.map (·.role)) := by
  refine ⟨?_, ?_, ?_, ?_⟩
  · intro n useDoc d topic lang req h
    unfold handleContinueDiscussion at h
    split_ifs at h
    rw [ContinueOutcome.startRun.injEq] at h
    rw [← h]
  · intro d
    exact jsSetFrom_eq_firstOccurrenceList _
  · intro d
    rw [deriveRoles, jsSetFrom_eq_firstOccurrenceList]
    exact firstOccurrenceList_nodup _
  · intro d r
    rw [deriveRoles, jsSetFrom_eq_firstOccurrenceList]
    exact firstOccurrenceList_mem _ _

/-- Witness for C7 at a concrete transcript holding a duplicate roster
role and a system pseudo-role. -/
theorem C7_continuation_role_rederivation_witness :
    (({ discussion_data :=
          [⟨"営業部長", "a"⟩, ⟨"システム", "指導"⟩, ⟨"営業部長", "b"⟩, ⟨"開発責任者", "c"⟩]
      , topic := "新製品", roles := deriveRoles
          [⟨"営業部長", "a"⟩, ⟨"システム", "指導"⟩, ⟨"営業部長", "b"⟩, ⟨"開発責任者", "c"⟩]
      , num_additional_turns := 2, language := "ja", use_document := false
      , current_turn := 0, current_role_index := 0 } : ContRequest).roles =
      deriveRoles
        [⟨"営業部長", "a"⟩, ⟨"システム", "指導"⟩, ⟨"営業部長", "b"⟩, ⟨"開発責任者", "c"⟩]) ∧
    ("システム" ∈ deriveRoles
        [⟨"営業部長", "a"⟩, ⟨"システム", "指導"⟩, ⟨"営業部長", "b"⟩, ⟨"開発責任者", "c"⟩]) :=
  ⟨C7_continuation_role_rederivation.1 2 false
      [⟨"営業部長", "a"⟩, ⟨"システム", "指導"⟩, ⟨"営業部長", "b"⟩, ⟨"開発責任者", "c"⟩]
      "新製品" "ja" _ (by decide),
   (C7_continuation_role_rederivation.2.2.2
      [⟨"営業部長", "a"⟩, ⟨"システム", "指導"⟩, ⟨"営業部長", "b"⟩, ⟨"開発責任者", "c"⟩]
      "システム").mpr (by decide)⟩

/-! ## Claim C8: contract-bound violations fail fast -/

/-- C8: a fresh run whose collected role list has fewer than 2 entries or
whose turn count lies outside `[1, 10]` stops at validation with an error
and never reaches `generateDiscussion`; a continuation or guidance run
whose additional turn count lies outside `[1, 5]` likewise stops with an
error before any request is issued. -/
theorem C8_invalid_input_fails_fast :
    (∀ (topicRaw : String) (n : Int) (vals : List String),
        ((collectRoles vals).length < 2 ∨ n < 1 ∨ 10 < n) →
        ∃ msg, handleFormSubmit topicRaw n vals = SubmitOutcome.error msg) ∧
    (∀ (n : Int) (useDoc : Bool) (d : List Utterance) (topic lang : String),
        (n < 1 ∨ 5 < n) →
        handleContinueDiscussion n useDoc d topic lang =
          ContinueOutcome.error "追加ターン数は1から5の間で指定してください。") ∧
    (∀ (instr : String) (n : Int) (useDoc : Bool) (d : List Utterance)
        (topic lang : String),
        (n < 1 ∨ 5 < n) →
        ∃ msg, handleProvideGuidance instr n useDoc d topic lang =
          GuidanceOutcome.error msg) := by
  refine ⟨?_, ?_, ?_⟩
  · intro topicRaw n vals h
    simp only [handleFormSubmit]
    split_ifs with h1 h2 h3
    · exact ⟨_, rfl⟩
    · exact ⟨_, rfl⟩
    · exact ⟨_, rfl⟩
    · rcases h with h | h
      · exact absurd h h2
      · exact absurd h h3
  · intro n useDoc d topic lang h
    unfold handleContinueDiscussion
    rw [if_pos h]
  · intro instr n useDoc d topic lang h
    simp only [handleProvideGuidance]
    by_cases h1 : jsTrim instr = ""
    · exact ⟨_, by rw [if_pos h1]⟩
    · exact ⟨_, by rw [if_neg h1, if_pos h]⟩

/-- Witness for C8 at concrete out-of-bound inputs. -/
theorem C8_invalid_input_fails_fast_witness :
    (∃ msg, handleFormSubmit "新製品" 0 ["営業部長", "開発責任者"] =
      SubmitOutcome.error msg) ∧
    (handleContinueDiscussion 6 false [] "新製品" "ja" =
      ContinueOutcome.error "追加ターン数は1から5の間で指定してください。") ∧
    (∃ msg, handleProvideGuidance "指導内容" 9 false [] "新製品" "ja" =
      GuidanceOutcome.error msg) :=
  ⟨C8_invalid_input_fails_fast.1 "新製品" 0 ["営業部長", "開発責任者"]
      (Or.inr (Or.inl (by decide))),
   C8_invalid_input_fails_fast.2.1 6 false [] "新製品" "ja"
      (Or.inr (by decide)),
   C8_invalid_input_fails_fast.2.2 "指導内容" 9 false [] "新製品" "ja"
      (Or.inr (by decide))⟩

/-! ## Claim C9: roster size stays between 2 and 6 (corrected) -/

/-- C9 counterexample: the form handler starts a run from three identical
role names, so a run can start with fewer than 2 distinct roles; only the
entry count (with duplicates) is bounded below by 2. -/
theorem C9_distinct_roles_counterexample :
    handleFormSubmit "新製品" 3 ["営業部長", "営業部長", "営業部長"] =
      SubmitOutcome.start "新製品" ["営業部長", "営業部長", "営業部長"] 3 ∧
    (["営業部長", "営業部長", "営業部長"] : List String).dedup.length = 1 := by
  constructor
  · decide
  · decide

/-- C9 as amended: every started run has between 2 and 6 role entries
counted with multiplicity (the code never enforces distinctness): the form
handler only starts with at least 2 collected roles, no sequence of
roster-widget interactions leaves the 2..6 input range, and a run started
from any reachable roster state has between 2 and 6 role entries. -/
theorem C9_roster_size_amended :
    (∀ (topicRaw : String) (n : Int) (vals : List String)
        (t : String) (r : List String) (m : Int),
        handleFormSubmit topicRaw n vals = SubmitOutcome.start t r m →
        2 ≤ r.length) ∧
    (∀ (inputs : List String) (ops : List RoleOp),
        2 ≤ inputs.length → inputs.length ≤ 6 →
        2 ≤ (applyRoleOps inputs ops).length ∧
          (applyRoleOps inputs ops).length ≤ 6) ∧
    (∀ (inputs : List String) (ops : List RoleOp) (topicRaw : String)
        (n : Int) (t : String) (r : List String) (m : Int),
        2 ≤ inputs.length → inputs.length ≤ 6 →
        handleFormSubmit topicRaw n (applyRoleOps inputs ops) =
          SubmitOutcome.start t r m →
        2 ≤ r.length ∧ r.length ≤ 6) := by
  have hstart : ∀ (topicRaw : String) (n : Int) (vals : List String)
      (t : String) (r : List String) (m : Int),
      handleFormSubmit topicRaw n vals = SubmitOutcome.start t r m →
      2 ≤ r.length ∧ r = collectRoles vals := by
    intro topicRaw n vals t r m h
    simp only [handleFormSubmit] at h
    split_ifs at h with h1 h2 h3
    rw [SubmitOutcome.start.injEq] at h
    obtain ⟨ht, hr, hm⟩ := h
    subst hr
    exact ⟨by omega, rfl⟩
  have hops : ∀ (ops : List RoleOp) (inputs : List String),
      2 ≤ inputs.length → inputs.length ≤ 6 →
      2 ≤ (applyRoleOps inputs ops).length ∧
        (applyRoleOps inputs ops).length ≤ 6 := by
    intro ops
    induction ops with
    | nil => intro inputs h2 h6; exact ⟨h2, h6⟩
    | cons op ops ih =>
      intro inputs h2 h6
      have hstep : 2 ≤ (applyRoleOp inputs op).length ∧
          (applyRoleOp inputs op).length ≤ 6 := by
        cases op with
        | add text =>
          simp only [applyRoleOp, addRoleInput]
          split_ifs with hadd
          · exact ⟨h2, h6⟩
          · rw [List.length_append]
            simp only [List.length_cons, List.length_nil]
            omega
        | remove i =>
          simp only [applyRoleOp]
          split_ifs with hrem
          · exact ⟨h2, h6⟩
          · rw [List.length_eraseIdx]
            split_ifs <;> omega
      exact ih (applyRoleOp inputs op) hstep.1 hstep.2
  refine ⟨fun topicRaw n vals t r m h => (hstart topicRaw n vals t r m h).1,
    fun inputs ops => hops ops inputs, ?_⟩
  intro inputs ops topicRaw n t r m h2 h6 h
  obtain ⟨hge, hr⟩ := hstart topicRaw n _ t r m h
  refine ⟨hge, ?_⟩
  have hcol : (collectRoles (applyRoleOps inputs ops)).length ≤
      (applyRoleOps inputs ops).length := by
    calc (collectRoles (applyRoleOps inputs ops)).length
        ≤ ((applyRoleOps inputs ops).map jsTrim).length :=
          List.length_filter_le _ _
      _ = (applyRoleOps inputs ops).length := List.length_map _ _
  have hle := (hops ops inputs h2 h6).2
  rw [hr]
  omega

/-! ## Claim C4: grounding without a stored document is a hard error -/

/-- C4: a grounded-generation request with no stored document fails with
the document-unavailable error before any generation request is issued and
is never silently replaced by ungrounded generation: when the other
validations pass and the session holds no document (or JS-falsy empty
text), both revisions of the handler return the document error; with no
stored document neither ever reaches `startGrounded`; and no input
whatsoever makes either handler fall back to `startUngrounded`. -/
theorem C4_document_unavailable_hard_error :
    (∀ (topicRaw : String) (n : Int) (vals : List String)
        (sd : Option String),
        jsTrim topicRaw ≠ "" → 2 ≤ (collectRoles vals).length →
        1 ≤ n → n ≤ 10 → sd.getD "" = "" →
        handleGenerateWithDocument topicRaw n vals sd = DocSubmitOutcome.error
          "有効なドキュメントがアップロードされていません。先にドキュメントをアップロードしてください。" ∧
        handleGenerateWithDocumentChecked topicRaw n vals sd = DocSubmitOutcome.error
          "有効なドキュメントがアップロードされていません。先にドキュメントをアップロードしてください。") ∧
    (∀ (topicRaw : String) (n : Int) (vals : List String) (sd : Option String)
        (t : String) (r : List String) (m : Int), sd.getD "" = "" →
        handleGenerateWithDocument topicRaw n vals sd ≠
          DocSubmitOutcome.startGrounded t r m ∧
        handleGenerateWithDocumentChecked topicRaw n vals sd ≠
          DocSubmitOutcome.startGrounded t r m) ∧
    (∀ (topicRaw : String) (n : Int) (vals : List String) (sd : Option String)
        (t : String) (r : List String) (m : Int),
        handleGenerateWithDocument topicRaw n vals sd ≠
          DocSubmitOutcome.startUngrounded t r m ∧
        handleGenerateWithDocumentChecked topicRaw n vals sd ≠
          DocSubmitOutcome.startUngrounded t r m) := by
  refine ⟨?_, ?_, ?_⟩
  · intro topicRaw n vals sd h1 h2 h3 h4 h5
    constructor
    · simp only [handleGenerateWithDocument]
      rw [if_neg h1, if_neg (by omega), if_neg (by omega), if_pos h5]
    · simp only [handleGenerateWithDocumentChecked]
      rw [if_neg h1, if_neg (by omega), if_neg (by omega), if_pos h5]
  · intro topicRaw n vals sd t r m h5
    constructor
    · simp only [handleGenerateWithDocument]
      split_ifs with h1 h2 h3
      · simp
      · simp
      · simp
      · simp
    · simp only [handleGenerateWithDocumentChecked]
      split_ifs with h1 h2 h3
      · simp
      · simp
      · simp
      · simp
  · intro topicRaw n vals sd t r m
    constructor
    · simp only [handleGenerateWithDocument]
      split_ifs <;> simp
    · simp only [handleGenerateWithDocumentChecked]
      split_ifs <;> simp

/-- Witness for C4 at a concrete otherwise-valid request with an empty
session store. -/
theorem C4_document_unavailable_hard_error_witness :
    (handleGenerateWithDocument "新製品" 3 ["営業部長", "開発責任者"] none =
      DocSubmitOutcome.error
        "有効なドキュメントがアップロードされていません。先にドキュメントをアップロードしてください。" ∧
     handleGenerateWithDocumentChecked "新製品" 3 ["営業部長", "開発責任者"] none =
      DocSubmitOutcome.error
        "有効なドキュメントがアップロードされていません。先にドキュメントをアップロードしてください。") ∧
    (handleGenerateWithDocument "新製品" 3 ["営業部長", "開発責任者"] none ≠
      DocSubmitOutcome.startGrounded "新製品" ["営業部長", "開発責任者"] 3) ∧
    (handleGenerateWithDocument "新製品" 3 ["営業部長", "開発責任者"] (some "文書") ≠
      DocSubmitOutcome.startUngrounded "新製品" ["営業部長", "開発責任者"] 3) :=
  ⟨C4_document_unavailable_hard_error.1 "新製品" 3 ["営業部長", "開発責任者"] none
      (by decide) (by decide) (by decide) (by decide) (by decide),
   (C4_document_unavailable_hard_error.2.1 "新製品" 3 ["営業部長", "開発責任者"] none
      "新製品" ["営業部長", "開発責任者"] 3 (by decide)).1,
   (C4_document_unavailable_hard_error.2.2 "新製品" 3 ["営業部長", "開発責任者"]
      (some "文書") "新製品" ["営業部長", "開発責任者"] 3).1⟩

/-! ## Claim C5: guidance injection (corrected) -/

/-- C5 counterexample: at a concrete guidance invocation the caller sends
the carried-in history unchanged — the request's `discussion_data` equals
the collected transcript, which contains no system-role entry — so the
caller does not pre-extend the history with a synthetic
`{role:"system", content:instruction}` utterance before the first call;
the instruction travels as its own request field instead. -/
theorem C5_caller_injection_counterexample :
    handleProvideGuidance "リスクを深掘りしてください" 2 false
      [⟨"営業部長", "現状の市場環境を説明します。"⟩,
       ⟨"開発責任者", "技術的な実現性を補足します。"⟩] "新製品" "ja" =
    GuidanceOutcome.send
      ⟨[⟨"営業部長", "現状の市場環境を説明します。"⟩,
        ⟨"開発責任者", "技術的な実現性を補足します。"⟩],
       "新製品", "リスクを深掘りしてください", 2, false, "ja"⟩ ∧
    ([⟨"営業部長", "現状の市場環境を説明します。"⟩,
      ⟨"開発責任者", "技術的な実現性を補足します。"⟩] : List Utterance) ≠
      [⟨"営業部長", "現状の市場環境を説明します。"⟩,
       ⟨"開発責任者", "技術的な実現性を補足します。"⟩] ++
        [⟨"system", "リスクを深掘りしてください"⟩] ∧
    (⟨"system", "リスクを深掘りしてください"⟩ : Utterance) ∉
      ([⟨"営業部長", "現状の市場環境を説明します。"⟩,
        ⟨"開発責任者", "技術的な実現性を補足します。"⟩] : List Utterance) := by
  refine ⟨by decide, by decide, by decide⟩

/-- C5 as amended: the caller does not inject the system utterance itself;
every guidance invocation passing validation issues exactly one request
that carries the collected transcript unchanged together with the trimmed
instruction as a separate field (the injection of a system-role utterance,
and hence the final transcript's shape, is the absent back end's
concern). -/
theorem C5_guidance_request_amended :
    ∀ (instrRaw : String) (n : Int) (useDoc : Bool) (d : List Utterance)
      (topic lang : String),
      jsTrim instrRaw ≠ "" → 1 ≤ n → n ≤ 5 →
      handleProvideGuidance instrRaw n useDoc d topic lang =
        GuidanceOutcome.send
          ⟨d, topic, jsTrim instrRaw, n.toNat, useDoc, lang⟩ := by
  intro instrRaw n useDoc d topic lang h1 h2 h3
  simp only [handleProvideGuidance]
  rw [if_neg h1, if_neg (by omega)]

/-- Witness for the amended C5 at a concrete guidance invocation. -/
theorem C5_guidance_request_amended_witness :
    handleProvideGuidance "論点を整理してください" 3 true
      [⟨"営業部長", "説明します。"⟩] "新製品" "ja" =
    GuidanceOutcome.send
      ⟨[⟨"営業部長", "説明します。"⟩], "新製品",
       jsTrim "論点を整理してください", Int.toNat 3, true, "ja"⟩ :=
  C5_guidance_request_amended "論点を整理してください" 3 true
    [⟨"営業部長", "説明します。"⟩] "新製品" "ja"
    (by decide) (by decide) (by decide)

/-! ## Helper lemmas on the fresh-generation loop -/

theorem generateNextTurn_head (server : GenRequest → FetchOutcome TurnResponse)
    (topic : String) (roles : List String) (numTurns : Nat) (lang : String)
    (fuel : Nat) (d : List Utterance) (t j : Nat)
    (h : 0 < (generateNextTurn server topic roles numTurns lang fuel d t j).requests.length) :
    (generateNextTurn server topic roles numTurns lang fuel d t j).requests.getD 0 dummyGenReq =
      mkGenRequest topic roles numTurns d t j lang := by
  cases fuel with
  | zero => simp [generateNextTurn] at h
  | succ fuel =>
    cases hs : server (⟨topic, roles, numTurns, d, t, j, lang⟩ : GenRequest) with
    | fail e => simp [generateNextTurn, mkGenRequest, hs]
    | ok data =>
      cases herr : data.error with
      | some msg => simp [generateNextTurn, mkGenRequest, hs, herr]
      | none =>
        cases hc : data.is_complete with
        | true => simp [generateNextTurn, mkGenRequest, hs, herr, hc]
        | false => simp [generateNextTurn, mkGenRequest, hs, herr, hc]

theorem generateNextTurn_chain (server : GenRequest → FetchOutcome TurnResponse)
    (topic : String) (roles : List String) (numTurns : Nat) (lang : String) :
    ∀ (fuel : Nat) (d : List Utterance) (t j i : Nat),
      i + 1 < (generateNextTurn server topic roles numTurns lang fuel d t j).requests.length →
      ∃ r : TurnResponse,
        server ((generateNextTurn server topic roles numTurns lang fuel d t j).requests.getD
            i dummyGenReq) = .ok r ∧
        r.error = none ∧ r.is_complete = false ∧
        (generateNextTurn server topic roles numTurns lang fuel d t j).requests.getD
            (i + 1) dummyGenReq =
          nextGenRequest ((generateNextTurn server topic roles numTurns lang fuel
            d t j).requests.getD i dummyGenReq) r := by
  intro fuel
  induction fuel with
  | zero => intro d t j i h; simp [generateNextTurn] at h
  | succ fuel ih =>
    intro d t j i h
    cases hs : server (⟨topic, roles, numTurns, d, t, j, lang⟩ : GenRequest) with
    | fail e => simp [generateNextTurn, mkGenRequest, hs] at h
    | ok data =>
      cases herr : data.error with
      | some msg => simp [generateNextTurn, mkGenRequest, hs, herr] at h
      | none =>
        cases hc : data.is_complete with
        | true => simp [generateNextTurn, mkGenRequest, hs, herr, hc] at h
        | false =>
          have hres : (generateNextTurn server topic roles numTurns lang (fuel + 1)
              d t j).requests =
              mkGenRequest topic roles numTurns d t j lang ::
                (generateNextTurn server topic roles numTurns lang fuel
                  (d ++ [data.message]) data.next_turn data.next_role_index).requests := by
            simp [generateNextTurn, mkGenRequest, hs, herr, hc]
          rw [hres] at h ⊢
          cases i with
          | zero =>
            refine ⟨data, ?_, herr, hc, ?_⟩
            · simpa [mkGenRequest] using hs
            · simp only [List.getD_cons_succ, List.getD_cons_zero]
              have hlen : 0 < (generateNextTurn server topic roles numTurns lang fuel
                  (d ++ [data.message]) data.next_turn data.next_role_index).requests.length := by
                simp only [List.length_cons] at h
                omega
              rw [generateNextTurn_head server topic roles numTurns lang fuel
                (d ++ [data.message]) data.next_turn data.next_role_index hlen]
              rfl
          | succ i =>
            have hlt : i + 1 < (generateNextTurn server topic roles numTurns lang fuel
                (d ++ [data.message]) data.next_turn data.next_role_index).requests.length := by
              simp only [List.length_cons] at h
              omega
            obtain ⟨r, hr1, hr2, hr3, hr4⟩ := ih (d ++ [data.message])
              data.next_turn data.next_role_index i hlt
            exact ⟨r, by simpa using hr1, hr2, hr3, by simpa using hr4⟩

/-! ## Helper lemmas on the grounded loop -/

theorem generateNextTurnWithDocument_head (server : DocRequest → FetchOutcome TurnResponse)
    (topic : String) (roles : List String) (numTurns : Nat) (lang : String)
    (useDoc : Bool) (fuel : Nat) (d : List Utterance) (t j : Nat)
    (h : 0 < (generateNextTurnWithDocument server topic roles numTurns lang useDoc
      fuel d t j).requests.length) :
    (generateNextTurnWithDocument server topic roles numTurns lang useDoc
        fuel d t j).requests.getD 0 dummyDocReq =
      ⟨topic, roles, numTurns, d, t, j, lang, useDoc⟩ := by
  cases fuel with
  | zero => simp [generateNextTurnWithDocument] at h
  | succ fuel =>
    cases hs : server (⟨topic, roles, numTurns, d, t, j, lang, useDoc⟩ : DocRequest) with
    | fail e => simp [generateNextTurnWithDocument, hs]
    | ok data =>
      cases herr : data.error with
      | some msg => simp [generateNextTurnWithDocument, hs, herr]
      | none =>
        cases hc : data.is_complete with
        | true => simp [generateNextTurnWithDocument, hs, herr, hc]
        | false => simp [generateNextTurnWithDocument, hs, herr, hc]

theorem generateNextTurnWithDocument_chain (server : DocRequest → FetchOutcome TurnResponse)
    (topic : String) (roles : List String) (numTurns : Nat) (lang : String)
    (useDoc : Bool) :
    ∀ (fuel : Nat) (d : List Utterance) (t j i : Nat),
      i + 1 < (generateNextTurnWithDocument server topic roles numTurns lang useDoc
        fuel d t j).requests.length →
      ∃ r : TurnResponse,
        server ((generateNextTurnWithDocument server topic roles numTurns lang useDoc
            fuel d t j).requests.getD i dummyDocReq) = .ok r ∧
        r.error = none ∧ r.is_complete = false ∧
        (generateNextTurnWithDocument server topic roles numTurns lang useDoc
            fuel d t j).requests.getD (i + 1) dummyDocReq =
          nextDocRequest ((generateNextTurnWithDocument server topic roles numTurns
            lang useDoc fuel d t j).requests.getD i dummyDocReq) r := by
  intro fuel
  induction fuel with
  | zero => intro d t j i h; simp [generateNextTurnWithDocument] at h
  | succ fuel ih =>
    intro d t j i h
    cases hs : server (⟨topic, roles, numTurns, d, t, j, lang, useDoc⟩ : DocRequest) with
    | fail e => simp [generateNextTurnWithDocument, hs] at h
    | ok data =>
      cases herr : data.error with
      | some msg => simp [generateNextTurnWithDocument, hs, herr] at h
      | none =>
        cases hc : data.is_complete with
        | true => simp [generateNextTurnWithDocument, hs, herr, hc] at h
        | false =>
          have hres : (generateNextTurnWithDocument server topic roles numTurns lang
              useDoc (fuel + 1) d t j).requests =
              (⟨topic, roles, numTurns, d, t, j, lang, useDoc⟩ : DocRequest) ::
                (generateNextTurnWithDocument server topic roles numTurns lang useDoc
                  fuel (d ++ [data.message]) data.next_turn data.next_role_index).requests := by
            simp [generateNextTurnWithDocument, hs, herr, hc]
          rw [hres] at h ⊢
          cases i with
          | zero =>
            refine ⟨data, ?_, herr, hc, ?_⟩
            · simpa using hs
            · simp only [List.getD_cons_succ, List.getD_cons_zero]
              have hlen : 0 < (generateNextTurnWithDocument server topic roles numTurns
                  lang useDoc fuel (d ++ [data.message]) data.next_turn
                  data.next_role_index).requests.length := by
                simp only [List.length_cons] at h
                omega
              rw [generateNextTurnWithDocument_head server topic roles numTurns lang
                useDoc fuel (d ++ [data.message]) data.next_turn data.next_role_index hlen]
              rfl
          | succ i =>
            have hlt : i + 1 < (generateNextTurnWithDocument server topic roles numTurns
                lang useDoc fuel (d ++ [data.message]) data.next_turn
                data.next_role_index).requests.length := by
              simp only [List.length_cons] at h
              omega
            obtain ⟨r, hr1, hr2, hr3, hr4⟩ := ih (d ++ [data.message])
              data.next_turn data.next_role_index i hlt
            exact ⟨r, by simpa using hr1, hr2, hr3, by simpa using hr4⟩

/-! ## Helper lemmas on the continuation loop -/

theorem fetchNextContinuationTurn_head (server : ContRequest → FetchOutcome ContResponse)
    (fuel : Nat) (q : ContRequest) (d : List Utterance)
    (h : 0 < (fetchNextContinuationTurn server fuel q d).requests.length) :
    (fetchNextContinuationTurn server fuel q d).requests.getD 0 dummyContReq = q := by
  cases fuel with
  | zero => simp [fetchNextContinuationTurn] at h
  | succ fuel =>
    cases hs : server q with
    | fail e => simp [fetchNextContinuationTurn, hs]
    | ok data =>
      cases herr : data.error with
      | some msg => simp [fetchNextContinuationTurn, hs, herr]
      | none =>
        cases hmsg : data.message with
        | none => simp [fetchNextContinuationTurn, hs, herr, hmsg]
        | some m =>
          cases hc : data.is_complete with
          | true => simp [fetchNextContinuationTurn, hs, herr, hmsg, hc]
          | false => simp [fetchNextContinuationTurn, hs, herr, hmsg, hc]

theorem fetchNextContinuationTurn_chain (server : ContRequest → FetchOutcome ContResponse) :
    ∀ (fuel : Nat) (q : ContRequest) (d : List Utterance), q.discussion_data = d →
      ∀ i, i + 1 < (fetchNextContinuationTurn server fuel q d).requests.length →
      ∃ r : ContResponse,
        server ((fetchNextContinuationTurn server fuel q d).requests.getD
            i dummyContReq) = .ok r ∧
        r.error = none ∧
        (∀ m, r.message = some m → r.is_complete = false) ∧
        (fetchNextContinuationTurn server fuel q d).requests.getD (i + 1) dummyContReq =
          nextContRequest ((fetchNextContinuationTurn server fuel q d).requests.getD
            i dummyContReq) r := by
  intro fuel
  induction fuel with
  | zero => intro q d hqd i h; simp [fetchNextContinuationTurn] at h
  | succ fuel ih =>
    intro q d hqd i h
    cases hs : server q with
    | fail e => simp [fetchNextContinuationTurn, hs] at h
    | ok data =>
      cases herr : data.error with
      | some msg => simp [fetchNextContinuationTurn, hs, herr] at h
      | none =>
        cases hmsg : data.message with
        | none =>
          have hres : (fetchNextContinuationTurn server (fuel + 1) q d).requests =
              q :: (fetchNextContinuationTurn server fuel
                { q with current_turn := data.next_turn
                       , current_role_index := data.next_role_index } d).requests := by
            simp [fetchNextContinuationTurn, hs, herr, hmsg]
          rw [hres] at h ⊢
          cases i with
          | zero =>
            refine ⟨data, by simpa using hs, herr, by simp [hmsg], ?_⟩
            simp only [List.getD_cons_succ, List.getD_cons_zero]
            have hlen : 0 < (fetchNextContinuationTurn server fuel
                { q with current_turn := data.next_turn
                       , current_role_index := data.next_role_index } d).requests.length := by
              simp only [List.length_cons] at h
              omega
            rw [fetchNextContinuationTurn_head server fuel _ d hlen]
            simp [nextContRequest, hmsg]
          | succ i =>
            have hlt : i + 1 < (fetchNextContinuationTurn server fuel
                { q with current_turn := data.next_turn
                       , current_role_index := data.next_role_index } d).requests.length := by
              simp only [List.length_cons] at h
              omega
            obtain ⟨r, hr1, hr2, hr3, hr4⟩ := ih
              { q with current_turn := data.next_turn
                     , current_role_index := data.next_role_index } d hqd i hlt
            exact ⟨r, by simpa using hr1, hr2, hr3, by simpa using hr4⟩
        | some m =>
          cases hc : data.is_complete with
          | true => simp [fetchNextContinuationTurn, hs, herr, hmsg, hc] at h
          | false =>
            have hres : (fetchNextContinuationTurn server (fuel + 1) q d).requests =
                q :: (fetchNextContinuationTurn server fuel
                  { q with current_turn := data.next_turn
                         , current_role_index := data.next_role_index
                         , discussion_data := d ++ [m] } (d ++ [m])).requests := by
              simp [fetchNextContinuationTurn, hs, herr, hmsg, hc]
            rw [hres] at h ⊢
            cases i with
            | zero =>
              refine ⟨data, by simpa using hs, herr, ?_, ?_⟩
              · intro m' hm'
                exact hc
              · simp only [List.getD_cons_succ, List.getD_cons_zero]
                have hlen : 0 < (fetchNextContinuationTurn server fuel
                    { q with current_turn := data.next_turn
                           , current_role_index := data.next_role_index
                           , discussion_data := d ++ [m] } (d ++ [m])).requests.length := by
                  simp only [List.length_cons] at h
                  omega
                rw [fetchNextContinuationTurn_head server fuel _ (d ++ [m]) hlen]
                simp [nextContRequest, hmsg, hqd]
            | succ i =>
              have hlt : i + 1 < (fetchNextContinuationTurn server fuel
                  { q with current_turn := data.next_turn
                         , current_role_index := data.next_role_index
                         , discussion_data := d ++ [m] } (d ++ [m])).requests.length := by
                simp only [List.length_cons] at h
                omega
              obtain ⟨r, hr1, hr2, hr3, hr4⟩ := ih
                { q with current_turn := data.next_turn
                       , current_role_index := data.next_role_index
                       , discussion_data := d ++ [m] } (d ++ [m]) rfl i hlt
              exact ⟨r, by simpa using hr1, hr2, hr3, by simpa using hr4⟩

theorem fetchNextContinuationTurn_errored (server : ContRequest → FetchOutcome ContResponse) :
    ∀ (fuel : Nat) (q : ContRequest) (d : List Utterance), q.discussion_data = d →
      (fetchNextContinuationTurn server fuel q d).status = .errored →
      ∃ qs qlast, (fetchNextContinuationTurn server fuel q d).requests = qs ++ [qlast] ∧
        (fetchNextContinuationTurn server fuel q d).transcript =
          qlast.discussion_data := by
  intro fuel
  induction fuel with
  | zero => intro q d hqd h; simp [fetchNextContinuationTurn] at h
  | succ fuel ih =>
    intro q d hqd h
    cases hs : server q with
    | fail e =>
      exact ⟨[], q, by simp [fetchNextContinuationTurn, hs],
        by simp [fetchNextContinuationTurn, hs, hqd]⟩
    | ok data =>
      cases herr : data.error with
      | some msg =>
        exact ⟨[], q, by simp [fetchNextContinuationTurn, hs, herr],
          by simp [fetchNextContinuationTurn, hs, herr, hqd]⟩
      | none =>
        cases hmsg : data.message with
        | none =>
          have hstat : (fetchNextContinuationTurn server fuel
              { q with current_turn := data.next_turn
                     , current_role_index := data.next_role_index } d).status =
              .errored := by
            simpa [fetchNextContinuationTurn, hs, herr, hmsg] using h
          obtain ⟨qs, qlast, hq1, hq2⟩ := ih
            { q with current_turn := data.next_turn
                   , current_role_index := data.next_role_index } d hqd hstat
          exact ⟨q :: qs, qlast,
            by simp [fetchNextContinuationTurn, hs, herr, hmsg, hq1],
            by simpa [fetchNextContinuationTurn, hs, herr, hmsg] using hq2⟩
        | some m =>
          cases hc : data.is_complete with
          | true => simp [fetchNextContinuationTurn, hs, herr, hmsg, hc] at h
          | false =>
            have hstat : (fetchNextContinuationTurn server fuel
                { q with current_turn := data.next_turn
                       , current_role_index := data.next_role_index
                       , discussion_data := d ++ [m] } (d ++ [m])).status = .errored := by
              simpa [fetchNextContinuationTurn, hs, herr, hmsg, hc] using h
            obtain ⟨qs, qlast, hq1, hq2⟩ := ih
              { q with current_turn := data.next_turn
                     , current_role_index := data.next_role_index
                     , discussion_data := d ++ [m] } (d ++ [m]) rfl hstat
            exact ⟨q :: qs, qlast,
              by simp [fetchNextContinuationTurn, hs, herr, hmsg, hc, hq1],
              by simpa [fetchNextContinuationTurn, hs, herr, hmsg, hc] using hq2⟩

theorem generateNextTurn_errored (server : GenRequest → FetchOutcome TurnResponse)
    (topic : String) (roles : List String) (numTurns : Nat) (lang : String) :
    ∀ (fuel : Nat) (d : List Utterance) (t j : Nat),
      (generateNextTurn server topic roles numTurns lang fuel d t j).status = .errored →
      ∃ qs q, (generateNextTurn server topic roles numTurns lang fuel d t j).requests =
          qs ++ [q] ∧
        (generateNextTurn server topic roles numTurns lang fuel d t j).transcript =
          q.discussion := by
  intro fuel
  induction fuel with
  | zero => intro d t j h; simp [generateNextTurn] at h
  | succ fuel ih =>
    intro d t j h
    cases hs : server (⟨topic, roles, numTurns, d, t, j, lang⟩ : GenRequest) with
    | fail e =>
      exact ⟨[], mkGenRequest topic roles numTurns d t j lang,
        by simp [generateNextTurn, mkGenRequest, hs], by simp [generateNextTurn, mkGenRequest, hs, mkGenRequest]⟩
    | ok data =>
      cases herr : data.error with
      | some msg =>
        exact ⟨[], mkGenRequest topic roles numTurns d t j lang,
          by simp [generateNextTurn, mkGenRequest, hs, herr],
          by simp [generateNextTurn, mkGenRequest, hs, herr]⟩
      | none =>
        cases hc : data.is_complete with
        | true => simp [generateNextTurn, mkGenRequest, hs, herr, hc] at h
        | false =>
          have hstat : (generateNextTurn server topic roles numTurns lang fuel
              (d ++ [data.message]) data.next_turn data.next_role_index).status =
              .errored := by
            simpa [generateNextTurn, mkGenRequest, hs, herr, hc] using h
          obtain ⟨qs, q, hq1, hq2⟩ := ih (d ++ [data.message])
            data.next_turn data.next_role_index hstat
          exact ⟨mkGenRequest topic roles numTurns d t j lang :: qs, q,
            by simp [generateNextTurn, mkGenRequest, hs, herr, hc, hq1],
            by simpa [generateNextTurn, mkGenRequest, hs, herr, hc] using hq2⟩

/-! ## Claim C2: every request carries the full client-held state -/

/-- C2: in every stepping loop (fresh, grounded, continuation) the first
request carries exactly the carried-in history and starting cursor, and
each later request is obtained from its predecessor by appending exactly
the utterances the previous response returned and adopting the returned
cursor (`nextGenRequest` / `nextDocRequest` / `nextContRequest`); chaining
these steps, every request carries the complete transcript produced so
far, and no state other than the request body crosses invocations. -/
theorem C2_requests_carry_full_transcript :
    (∀ (server : GenRequest → FetchOutcome TurnResponse) (topic : String)
        (roles : List String) (numTurns : Nat) (lang : String) (fuel : Nat)
        (d : List Utterance) (t j : Nat),
        0 < (generateNextTurn server topic roles numTurns lang fuel d t j).requests.length →
        (generateNextTurn server topic roles numTurns lang fuel d t j).requests.getD
            0 dummyGenReq = mkGenRequest topic roles numTurns d t j lang) ∧
    (∀ (server : GenRequest → FetchOutcome TurnResponse) (topic : String)
        (roles : List String) (numTurns : Nat) (lang : String) (fuel : Nat)
        (d : List Utterance) (t j i : Nat),
        i + 1 < (generateNextTurn server topic roles numTurns lang fuel d t j).requests.length →
        ∃ r : TurnResponse,
          server ((generateNextTurn server topic roles numTurns lang fuel d t j).requests.getD
              i dummyGenReq) = .ok r ∧
          r.error = none ∧ r.is_complete = false ∧
          (generateNextTurn server topic roles numTurns lang fuel d t j).requests.getD
              (i + 1) dummyGenReq =
            nextGenRequest ((generateNextTurn server topic roles numTurns lang fuel
              d t j).requests.getD i dummyGenReq) r) ∧
    (∀ (server : DocRequest → FetchOutcome TurnResponse) (topic : String)
        (roles : List String) (numTurns : Nat) (lang : String) (useDoc : Bool)
        (fuel : Nat) (d : List Utterance) (t j i : Nat),
        i + 1 < (generateNextTurnWithDocument server topic roles numTurns lang useDoc
          fuel d t j).requests.length →
        ∃ r : TurnResponse,
          server ((generateNextTurnWithDocument server topic roles numTurns lang useDoc
              fuel d t j).requests.getD i dummyDocReq) = .ok r ∧
          r.error = none ∧ r.is_complete = false ∧
          (generateNextTurnWithDocument server topic roles numTurns lang useDoc
              fuel d t j).requests.getD (i + 1) dummyDocReq =
            nextDocRequest ((generateNextTurnWithDocument server topic roles numTurns
              lang useDoc fuel d t j).requests.getD i dummyDocReq) r) ∧
    (∀ (server : ContRequest → FetchOutcome ContResponse) (fuel : Nat)
        (q : ContRequest) (d : List Utterance), q.discussion_data = d →
        (0 < (fetchNextContinuationTurn server fuel q d).requests.length →
          (fetchNextContinuationTurn server fuel q d).requests.getD 0 dummyContReq = q) ∧
        ∀ i, i + 1 < (fetchNextContinuationTurn server fuel q d).requests.length →
          ∃ r : ContResponse,
            server ((fetchNextContinuationTurn server fuel q d).requests.getD
                i dummyContReq) = .ok r ∧
            r.error = none ∧
            (∀ m, r.message = some m → r.is_complete = false) ∧
            (fetchNextContinuationTurn server fuel q d).requests.getD (i + 1) dummyContReq =
              nextContRequest ((fetchNextContinuationTurn server fuel q d).requests.getD
                i dummyContReq) r) := by
  refine ⟨?_, ?_, ?_, ?_⟩
  · intro server topic roles numTurns lang fuel d t j h
    exact generateNextTurn_head server topic roles numTurns lang fuel d t j h
  · intro server topic roles numTurns lang fuel d t j i h
    exact generateNextTurn_chain server topic roles numTurns lang fuel d t j i h
  · intro server topic roles numTurns lang useDoc fuel d t j i h
    exact generateNextTurnWithDocument_chain server topic roles numTurns lang useDoc
      fuel d t j i h
  · intro server fuel q d hqd
    exact ⟨fun h => fetchNextContinuationTurn_head server fuel q d h,
      fun i h => fetchNextContinuationTurn_chain server fuel q d hqd i h⟩

/-- Witness for C2: a two-step fresh run and a two-step continuation run
against concrete constant servers. -/
theorem C2_requests_carry_full_transcript_witness :
    (∃ r : TurnResponse,
      (fun _ : GenRequest => FetchOutcome.ok
          (⟨none, ⟨"営業部長", "発言"⟩, false, 0, 1⟩ : TurnResponse))
        ((generateNextTurn
          (fun _ : GenRequest => FetchOutcome.ok
            (⟨none, ⟨"営業部長", "発言"⟩, false, 0, 1⟩ : TurnResponse))
          "新製品" ["営業部長", "開発責任者"] 1 "ja" 2 [] 0 0).requests.getD
            0 dummyGenReq) = .ok r ∧
      r.error = none ∧ r.is_complete = false ∧
      (generateNextTurn
          (fun _ : GenRequest => FetchOutcome.ok
            (⟨none, ⟨"営業部長", "発言"⟩, false, 0, 1⟩ : TurnResponse))
          "新製品" ["営業部長", "開発責任者"] 1 "ja" 2 [] 0 0).requests.getD
            1 dummyGenReq =
        nextGenRequest ((generateNextTurn
          (fun _ : GenRequest => FetchOutcome.ok
            (⟨none, ⟨"営業部長", "発言"⟩, false, 0, 1⟩ : TurnResponse))
          "新製品" ["営業部長", "開発責任者"] 1 "ja" 2 [] 0 0).requests.getD
            0 dummyGenReq) r) ∧
    (∃ r : ContResponse,
      (fun _ : ContRequest => FetchOutcome.ok
          (⟨none, some ⟨"営業部長", "続き"⟩, false, 0, 1⟩ : ContResponse))
        ((fetchNextContinuationTurn
          (fun _ : ContRequest => FetchOutcome.ok
            (⟨none, some ⟨"営業部長", "続き"⟩, false, 0, 1⟩ : ContResponse))
          2 dummyContReq []).requests.getD 0 dummyContReq) = .ok r ∧
      r.error = none ∧
      (∀ m, r.message = some m → r.is_complete = false) ∧
      (fetchNextContinuationTurn
          (fun _ : ContRequest => FetchOutcome.ok
            (⟨none, some ⟨"営業部長", "続き"⟩, false, 0, 1⟩ : ContResponse))
          2 dummyContReq []).requests.getD 1 dummyContReq =
        nextContRequest ((fetchNextContinuationTurn
          (fun _ : ContRequest => FetchOutcome.ok
            (⟨none, some ⟨"営業部長", "続き"⟩, false, 0, 1⟩ : ContResponse))
          2 dummyContReq []).requests.getD 0 dummyContReq) r) :=
  ⟨C2_requests_carry_full_transcript.2.1
      (fun _ : GenRequest => FetchOutcome.ok
        (⟨none, ⟨"営業部長", "発言"⟩, false, 0, 1⟩ : TurnResponse))
      "新製品" ["営業部長", "開発責任者"] 1 "ja" 2 [] 0 0 0 (by decide),
   ((C2_requests_carry_full_transcript.2.2.2
      (fun _ : ContRequest => FetchOutcome.ok
        (⟨none, some ⟨"営業部長", "続き"⟩, false, 0, 1⟩ : ContResponse))
      2 dummyContReq [] rfl).2 0 (by decide))⟩

/-! ## Claim C3: a failed step changes nothing -/

/-- C3: when a step fails (failed fetch or an `error` field in the
response body), the loop appends zero utterances, leaves the transcript
exactly as carried in, issues no further request (that failing request is
the last), and the cursor of the failing step is not advanced — the run
result is the one-request errored record, for the fresh and continuation
loops alike; moreover any errored run's transcript equals the transcript
carried by its last (failing) request, so every utterance from earlier
successful steps is preserved and resubmitting the same step is safe. -/
theorem C3_failed_step_preserves_state :
    (∀ (server : GenRequest → FetchOutcome TurnResponse) (topic : String)
        (roles : List String) (numTurns : Nat) (lang : String) (fuel : Nat)
        (d : List Utterance) (t j : Nat) (e : String),
        server (mkGenRequest topic roles numTurns d t j lang) = .fail e →
        generateNextTurn server topic roles numTurns lang (fuel + 1) d t j =
          ⟨[mkGenRequest topic roles numTurns d t j lang], d, .errored⟩) ∧
    (∀ (server : GenRequest → FetchOutcome TurnResponse) (topic : String)
        (roles : List String) (numTurns : Nat) (lang : String) (fuel : Nat)
        (d : List Utterance) (t j : Nat) (r : TurnResponse) (msg : String),
        server (mkGenRequest topic roles numTurns d t j lang) = .ok r →
        r.error = some msg →
        generateNextTurn server topic roles numTurns lang (fuel + 1) d t j =
          ⟨[mkGenRequest topic roles numTurns d t j lang], d, .errored⟩) ∧
    (∀ (server : ContRequest → FetchOutcome ContResponse) (fuel : Nat)
        (q : ContRequest) (d : List Utterance) (e : String),
        server q = .fail e →
        fetchNextContinuationTurn server (fuel + 1) q d = ⟨[q], d, .errored⟩) ∧
    (∀ (server : ContRequest → FetchOutcome ContResponse) (fuel : Nat)
        (q : ContRequest) (d : List Utterance) (r : ContResponse) (msg : String),
        server q = .ok r → r.error = some msg →
        fetchNextContinuationTurn server (fuel + 1) q d = ⟨[q], d, .errored⟩) ∧
    (∀ (server : GenRequest → FetchOutcome TurnResponse) (topic : String)
        (roles : List String) (numTurns : Nat) (lang : String) (fuel : Nat)
        (d : List Utterance) (t j : Nat),
        (generateNextTurn server topic roles numTurns lang fuel d t j).status = .errored →
        ∃ qs q, (generateNextTurn server topic roles numTurns lang fuel d t j).requests =
            qs ++ [q] ∧
          (generateNextTurn server topic roles numTurns lang fuel d t j).transcript =
            q.discussion) ∧
    (∀ (server : ContRequest → FetchOutcome ContResponse) (fuel : Nat)
        (q : ContRequest) (d : List Utterance), q.discussion_data = d →
        (fetchNextContinuationTurn server fuel q d).status = .errored →
        ∃ qs qlast, (fetchNextContinuationTurn server fuel q d).requests =
            qs ++ [qlast] ∧
          (fetchNextContinuationTurn server fuel q d).transcript =
            qlast.discussion_data) := by
  refine ⟨?_, ?_, ?_, ?_, ?_, ?_⟩
  · intro server topic roles numTurns lang fuel d t j e hs
    simp only [mkGenRequest] at hs
    simp [generateNextTurn, mkGenRequest, hs]
  · intro server topic roles numTurns lang fuel d t j r msg hs hr
    simp only [mkGenRequest] at hs
    simp [generateNextTurn, mkGenRequest, hs, hr]
  · intro server fuel q d e hs
    simp [fetchNextContinuationTurn, hs]
  · intro server fuel q d r msg hs hr
    simp [fetchNextContinuationTurn, hs, hr]
  · intro server topic roles numTurns lang fuel d t j h
    exact generateNextTurn_errored server topic roles numTurns lang fuel d t j h
  · intro server fuel q d hqd h
    exact fetchNextContinuationTurn_errored server fuel q d hqd h

/-- Witness for C3: concrete failing fetches and error responses leave
the concrete carried-in transcript untouched. -/
theorem C3_failed_step_preserves_state_witness :
    generateNextTurn (fun _ : GenRequest => FetchOutcome.fail "接続エラー")
        "新製品" ["営業部長", "開発責任者"] 2 "ja" 4
        [⟨"営業部長", "前の発言"⟩] 0 1 =
      ⟨[mkGenRequest "新製品" ["営業部長", "開発責任者"] 2
          [⟨"営業部長", "前の発言"⟩] 0 1 "ja"],
        [⟨"営業部長", "前の発言"⟩], .errored⟩ ∧
    generateNextTurn (fun _ : GenRequest => FetchOutcome.ok
        (⟨some "クォータ超過", ⟨"", ""⟩, false, 0, 0⟩ : TurnResponse))
        "新製品" ["営業部長", "開発責任者"] 2 "ja" 4
        [⟨"営業部長", "前の発言"⟩] 0 1 =
      ⟨[mkGenRequest "新製品" ["営業部長", "開発責任者"] 2
          [⟨"営業部長", "前の発言"⟩] 0 1 "ja"],
        [⟨"営業部長", "前の発言"⟩], .errored⟩ ∧
    fetchNextContinuationTurn (fun _ : ContRequest => FetchOutcome.fail "タイムアウト")
        3 dummyContReq [] = ⟨[dummyContReq], [], .errored⟩ ∧
    fetchNextContinuationTurn (fun _ : ContRequest => FetchOutcome.ok
        (⟨some "認証エラー", none, false, 0, 0⟩ : ContResponse))
        3 dummyContReq [] = ⟨[dummyContReq], [], .errored⟩ :=
  ⟨C3_failed_step_preserves_state.1 _ "新製品" ["営業部長", "開発責任者"] 2 "ja" 3
      [⟨"営業部長", "前の発言"⟩] 0 1 "接続エラー" rfl,
   C3_failed_step_preserves_state.2.1 _ "新製品" ["営業部長", "開発責任者"] 2 "ja" 3
      [⟨"営業部長", "前の発言"⟩] 0 1
      (⟨some "クォータ超過", ⟨"", ""⟩, false, 0, 0⟩ : TurnResponse) "クォータ超過" rfl rfl,
   C3_failed_step_preserves_state.2.2.1 _ 2 dummyContReq [] "タイムアウト" rfl,
   C3_failed_step_preserves_state.2.2.2.1 _ 2 dummyContReq []
      (⟨some "認証エラー", none, false, 0, 0⟩ : ContResponse) "認証エラー" rfl rfl⟩



/-! ## Claim C6: the continuation initialization round trip -/

theorem fetchNextContinuationTurn_no_init_replies
    (server : ContRequest → FetchOutcome ContResponse) (req0 : ContRequest)
    (huniq : ∀ (q : ContRequest) (r : ContResponse), server q = .ok r →
      r.error = none → r.message = none → q = req0) :
    ∀ (fuel : Nat) (q : ContRequest), q ≠ req0 →
      req0.discussion_data.length ≤ q.discussion_data.length →
      (fetchNextContinuationTurn server fuel q q.discussion_data).requests.countP
        (fun x => isInitReply (server x)) = 0 := by
  intro fuel
  induction fuel with
  | zero => intro q hq hlen; simp [fetchNextContinuationTurn]
  | succ fuel ih =>
    intro q hq hlen
    cases hs : server q with
    | fail e => simp [fetchNextContinuationTurn, hs, isInitReply]
    | ok data =>
      cases herr : data.error with
      | some msg =>
        simp [fetchNextContinuationTurn, hs, herr, isInitReply]
      | none =>
        cases hmsg : data.message with
        | none => exact absurd (huniq q data hs herr hmsg) hq
        | some m =>
          cases hc : data.is_complete with
          | true =>
            simp [fetchNextContinuationTurn, hs, herr, hmsg, hc, isInitReply]
          | false =>
            have hq2 : ({ q with
                current_turn := data.next_turn
                current_role_index := data.next_role_index
                discussion_data := q.discussion_data ++ [m] } :
                ContRequest) ≠ req0 := by
              intro heq
              have := congrArg (fun x => x.discussion_data.length) heq
              simp only [List.length_append, List.length_cons, List.length_nil] at this
              omega
            have hlen2 : req0.discussion_data.length ≤
                (q.discussion_data ++ [m]).length := by
              rw [List.length_append]
              simp only [List.length_cons, List.length_nil]
              omega
            have hrec := ih { q with
                current_turn := data.next_turn
                current_role_index := data.next_role_index
                discussion_data := q.discussion_data ++ [m] } hq2 hlen2
            have hinit : isInitReply (server q) = false := by
              simp [hs, isInitReply, herr, hmsg]
            simp only [fetchNextContinuationTurn, hs, herr, hmsg, hc]
            simp only [Option.isSome_none, Bool.false_eq_true, if_false,
              List.countP_cons, hinit]
            simpa using hrec

/-- C6: for a continuation run started at cursor `{0, 0}` over a
non-empty prior transcript, when the endpoint answers the initial request
with an utterance-free reply (and only that request, with a cursor other
than `{0, 0}`), the loop appends nothing, adopts the returned cursor, and
immediately re-invokes itself — the run is the initial request consed
onto the run from the returned cursor over the unchanged transcript — and
the whole run contains exactly one such utterance-free round trip. -/
theorem C6_continuation_empty_first_round_trip
    (server : ContRequest → FetchOutcome ContResponse) (fuel : Nat)
    (req0 : ContRequest) (r0 : ContResponse)
    (ht : req0.current_turn = 0) (hj : req0.current_role_index = 0)
    (hne : req0.discussion_data ≠ [])
    (hs : server req0 = .ok r0) (herr : r0.error = none)
    (hmsg : r0.message = none)
    (hcur : ¬(r0.next_turn = 0 ∧ r0.next_role_index = 0))
    (huniq : ∀ (q : ContRequest) (r : ContResponse), server q = .ok r →
      r.error = none → r.message = none → q = req0) :
    fetchNextContinuationTurn server (fuel + 1) req0 req0.discussion_data =
      ⟨req0 :: (fetchNextContinuationTurn server fuel
          { req0 with current_turn := r0.next_turn
                    , current_role_index := r0.next_role_index }
          req0.discussion_data).requests,
        (fetchNextContinuationTurn server fuel
          { req0 with current_turn := r0.next_turn
                    , current_role_index := r0.next_role_index }
          req0.discussion_data).transcript,
        (fetchNextContinuationTurn server fuel
          { req0 with current_turn := r0.next_turn
                    , current_role_index := r0.next_role_index }
          req0.discussion_data).status⟩ ∧
    (fetchNextContinuationTurn server (fuel + 1) req0
        req0.discussion_data).requests.countP
      (fun x => isInitReply (server x)) = 1 := by
  have hstep : fetchNextContinuationTurn server (fuel + 1) req0 req0.discussion_data =
      ⟨req0 :: (fetchNextContinuationTurn server fuel
          { req0 with current_turn := r0.next_turn
                    , current_role_index := r0.next_role_index }
          req0.discussion_data).requests,
        (fetchNextContinuationTurn server fuel
          { req0 with current_turn := r0.next_turn
                    , current_role_index := r0.next_role_index }
          req0.discussion_data).transcript,
        (fetchNextContinuationTurn server fuel
          { req0 with current_turn := r0.next_turn
                    , current_role_index := r0.next_role_index }
          req0.discussion_data).status⟩ := by
    simp [fetchNextContinuationTurn, hs, herr, hmsg]
  refine ⟨hstep, ?_⟩
  have hreq1 : ({ req0 with
      current_turn := r0.next_turn
      current_role_index := r0.next_role_index } : ContRequest) ≠ req0 := by
    intro heq
    have h1 := congrArg (fun x => x.current_turn) heq
    have h2 := congrArg (fun x => x.current_role_index) heq
    simp only at h1 h2
    exact hcur ⟨h1.trans ht, h2.trans hj⟩
  have hrest := fetchNextContinuationTurn_no_init_replies server req0 huniq fuel
    { req0 with
      current_turn := r0.next_turn
      current_role_index := r0.next_role_index } hreq1 le_rfl
  have hinit0 : isInitReply (server req0) = true := by
    simp [hs, isInitReply, herr, hmsg]
  rw [hstep]
  simp only [List.countP_cons, hinit0, if_true]
  simpa using hrest

/-- Witness for C6 at the concrete fixture: the run makes exactly one
utterance-free round trip before the terminal utterance-bearing step. -/
theorem C6_continuation_empty_first_round_trip_witness :
    fetchNextContinuationTurn witnessContServer 2 witnessContReq0
        witnessContReq0.discussion_data =
      ⟨witnessContReq0 :: (fetchNextContinuationTurn witnessContServer 1
          { witnessContReq0 with current_turn := 0, current_role_index := 1 }
          witnessContReq0.discussion_data).requests,
        (fetchNextContinuationTurn witnessContServer 1
          { witnessContReq0 with current_turn := 0, current_role_index := 1 }
          witnessContReq0.discussion_data).transcript,
        (fetchNextContinuationTurn witnessContServer 1
          { witnessContReq0 with current_turn := 0, current_role_index := 1 }
          witnessContReq0.discussion_data).status⟩ ∧
    (fetchNextContinuationTurn witnessContServer 2 witnessContReq0
        witnessContReq0.discussion_data).requests.countP
      (fun x => isInitReply (witnessContServer x)) = 1 :=
  C6_continuation_empty_first_round_trip witnessContServer 1 witnessContReq0
    ⟨none, none, false, 0, 1⟩ rfl rfl (by decide) (by decide) rfl rfl
    (by decide)
    (fun q r hq h1 h2 => by
      by_cases hcase : q = witnessContReq0
      · exact hcase
      · exfalso
        rw [witnessContServer, if_neg hcase] at hq
        rw [FetchOutcome.ok.injEq] at hq
        rw [← hq] at h2
        simp at h2)


/-! ## Claim C1: the fresh run issues exactly R × T steps -/

theorem stepArith_mid {R n t j k : Nat} (hj1 : j + 1 < R)
    (hk : n * R = t * R + j + (k + 1)) : t < n ∧ 1 ≤ k := by
  have h1 : t * R < n * R := by omega
  have ht : t < n := lt_of_mul_lt_mul_right h1 (Nat.zero_le R)
  refine ⟨ht, ?_⟩
  by_contra hknot
  push_neg at hknot
  have hk0 : k = 0 := by omega
  subst hk0
  have h2 : (t + 1) * R ≤ n * R := Nat.mul_le_mul_right R (by omega)
  have h3 : (t + 1) * R = t * R + R := by ring
  omega

theorem stepArith_wrap {R n t j k : Nat} (hj : j < R) (hj1 : ¬j + 1 < R)
    (hk : n * R = t * R + j + (k + 1)) (hk1 : 1 ≤ k) : t + 1 < n := by
  have h3 : (t + 1) * R = t * R + R := by ring
  have h1 : (t + 1) * R < n * R := by omega
  exact lt_of_mul_lt_mul_right h1 (Nat.zero_le R)

theorem stepArith_last {R n t j : Nat} (hj : j < R) (hj1 : ¬j + 1 < R)
    (hk : n * R = t * R + j + 1) : n = t + 1 := by
  have h3 : (t + 1) * R = t * R + R := by ring
  have h1 : n * R = (t + 1) * R := by omega
  have hR : 0 < R := by omega
  exact Nat.eq_of_mul_eq_mul_right hR h1

theorem modArith {R t j : Nat} (hj : j < R) : (t * R + j) % R = j := by
  rw [Nat.add_comm, Nat.add_mul_mod_self_right]
  exact Nat.mod_eq_of_lt hj

theorem specGenerateRun_aux (gen : GenRequest → String) (topic : String)
    (roles : List String) (numTurns : Nat) (lang : String) :
    ∀ (k t j : Nat) (d : List Utterance) (fuel : Nat) (res : RunResult GenRequest),
      j < roles.length →
      numTurns * roles.length = t * roles.length + j + k →
      1 ≤ k → k ≤ fuel →
      res = generateNextTurn (specGenerateServer gen) topic roles numTurns lang fuel d t j →
      res.status = .completed ∧
      res.requests.length = k ∧
      res.transcript.length = d.length + k ∧
      (∀ i, i < k →
        (res.requests.getD i dummyGenReq).currentRoleIndex < roles.length ∧
        (res.requests.getD i dummyGenReq).currentTurn * roles.length +
          (res.requests.getD i dummyGenReq).currentRoleIndex =
            t * roles.length + j + i ∧
        (res.requests.getD i dummyGenReq).discussion.length = d.length + i) ∧
      (∀ i, i < d.length → res.transcript.getD i dummyUtt = d.getD i dummyUtt) ∧
      (∀ i, i < k → (res.transcript.getD (d.length + i) dummyUtt).role =
        roles.getD ((t * roles.length + j + i) % roles.length) "") ∧
      (∀ i, i < k → respComplete (specGenerateServer gen
        (res.requests.getD i dummyGenReq)) = decide (i + 1 = k)) := by
  intro k
  induction k with
  | zero => intro t j d fuel res _ _ hk1 _ _; exact absurd hk1 (by omega)
  | succ k ih =>
    intro t j d fuel res hj hk hk1 hfuel hres
    have hR : 0 < roles.length := lt_of_le_of_lt (Nat.zero_le j) hj
    obtain ⟨fuel', rfl⟩ : ∃ f, fuel = f + 1 := ⟨fuel - 1, by omega⟩
    by_cases hcase : j + 1 < roles.length
    · -- mid-turn step: the cursor moves to (t, j + 1) and the run continues
      obtain ⟨ht, hk1'⟩ := stepArith_mid hcase hk
      have hcomp : decide (numTurns ≤ t) = false := decide_eq_false (by omega)
      have hstep : generateNextTurn (specGenerateServer gen) topic roles numTurns lang
          (fuel' + 1) d t j =
          ⟨mkGenRequest topic roles numTurns d t j lang ::
              (generateNextTurn (specGenerateServer gen) topic roles numTurns lang fuel'
                (d ++ [⟨roles.getD j "", gen (mkGenRequest topic roles numTurns d t j lang)⟩])
                t (j + 1)).requests,
            (generateNextTurn (specGenerateServer gen) topic roles numTurns lang fuel'
              (d ++ [⟨roles.getD j "", gen (mkGenRequest topic roles numTurns d t j lang)⟩])
              t (j + 1)).transcript,
            (generateNextTurn (specGenerateServer gen) topic roles numTurns lang fuel'
              (d ++ [⟨roles.getD j "", gen (mkGenRequest topic roles numTurns d t j lang)⟩])
              t (j + 1)).status⟩ := by
        simp [generateNextTurn, specGenerateServer, nextCursor, mkGenRequest, hcase, hcomp]
      obtain ⟨ih1, ih2, ih3, ih4, ih5, ih6, ih7⟩ := ih t (j + 1)
        (d ++ [⟨roles.getD j "", gen (mkGenRequest topic roles numTurns d t j lang)⟩])
        fuel' _ hcase (by omega) hk1' (by omega) rfl
      subst hres
      rw [hstep]
      refine ⟨ih1, by simpa using ih2, ?_, ?_, ?_, ?_, ?_⟩
      · simp only [List.length_append, List.length_cons, List.length_nil] at ih3
        simp only []
        omega
      · intro i hi
        cases i with
        | zero =>
          refine ⟨by simpa [mkGenRequest] using hj, by simp [mkGenRequest],
            by simp [mkGenRequest]⟩
        | succ i =>
          obtain ⟨hA, hB, hC⟩ := ih4 i (by omega)
          simp only [List.getD_cons_succ]
          simp only [List.length_append, List.length_cons, List.length_nil] at hC
          exact ⟨hA, by omega, by omega⟩
      · intro i hi
        have hlt : i < (d ++ [(⟨roles.getD j "",
            gen (mkGenRequest topic roles numTurns d t j lang)⟩ : Utterance)]).length := by
          simp only [List.length_append, List.length_cons, List.length_nil]
          omega
        simp only []
        rw [ih5 i hlt]
        exact List.getD_append _ _ _ _ hi
      · intro i hi
        cases i with
        | zero =>
          have hpref := ih5 d.length (by
            simp only [List.length_append, List.length_cons, List.length_nil]
            omega)
          simp only [Nat.add_zero]
          rw [hpref, List.getD_append_right _ _ _ _ le_rfl]
          simp only [Nat.sub_self, List.getD_cons_zero]
          rw [modArith hj]
        | succ i =>
          have hrole := ih6 i (by omega)
          simp only [List.length_append, List.length_cons, List.length_nil] at hrole
          have harr : d.length + (i + 1) = d.length + 1 + i := by omega
          have harr2 : t * roles.length + (j + 1) + i =
              t * roles.length + j + (i + 1) := by omega
          rw [harr2] at hrole
          simp only []
          rw [harr]
          exact hrole
      · intro i hi
        cases i with
        | zero =>
          simp only [List.getD_cons_zero]
          have hval : respComplete (specGenerateServer gen
              (mkGenRequest topic roles numTurns d t j lang)) =
              decide (numTurns ≤ t) := by
            simp [specGenerateServer, respComplete, nextCursor, mkGenRequest, hcase]
          rw [hval, hcomp]
          exact (decide_eq_false (by omega)).symm
        | succ i =>
          simp only [List.getD_cons_succ]
          rw [ih7 i (by omega)]
          exact decide_eq_decide.mpr (by omega)
    · -- wrap-around step: the cursor moves to (t + 1, 0)
      have hjR : j + 1 = roles.length := by omega
      cases Nat.eq_zero_or_pos k with
      | inl hk0 =>
        -- final step of the run: the response reports completion
        subst hk0
        have hlast : numTurns = t + 1 := stepArith_last hj hcase (by omega)
        have hcomp : decide (numTurns ≤ t + 1) = true := decide_eq_true (by omega)
        have hstep : generateNextTurn (specGenerateServer gen) topic roles numTurns lang
            (fuel' + 1) d t j =
            ⟨[mkGenRequest topic roles numTurns d t j lang],
              d ++ [⟨roles.getD j "", gen (mkGenRequest topic roles numTurns d t j lang)⟩],
              .completed⟩ := by
          simp [generateNextTurn, specGenerateServer, nextCursor, mkGenRequest, hcase, hcomp]
        subst hres
        rw [hstep]
        refine ⟨rfl, rfl, by simp, ?_, ?_, ?_, ?_⟩
        · intro i hi
          have hi0 : i = 0 := by omega
          subst hi0
          exact ⟨by simpa [mkGenRequest] using hj, by simp [mkGenRequest],
            by simp [mkGenRequest]⟩
        · intro i hi
          exact List.getD_append _ _ _ _ hi
        · intro i hi
          have hi0 : i = 0 := by omega
          subst hi0
          simp only [Nat.add_zero]
          rw [List.getD_append_right _ _ _ _ le_rfl]
          simp only [Nat.sub_self, List.getD_cons_zero]
          rw [modArith hj]
        · intro i hi
          have hi0 : i = 0 := by omega
          subst hi0
          simp only [List.getD_cons_zero]
          have hval : respComplete (specGenerateServer gen
              (mkGenRequest topic roles numTurns d t j lang)) =
              decide (numTurns ≤ t + 1) := by
            simp [specGenerateServer, respComplete, nextCursor, mkGenRequest, hcase]
          rw [hval, hcomp]
          simp
      | inr hkpos =>
        obtain ⟨k', rfl⟩ : ∃ k', k = k' + 1 := ⟨k - 1, by omega⟩
        have ht1 : t + 1 < numTurns := stepArith_wrap hj hcase hk (by omega)
        have hcomp : decide (numTurns ≤ t + 1) = false := decide_eq_false (by omega)
        have hstep : generateNextTurn (specGenerateServer gen) topic roles numTurns lang
            (fuel' + 1) d t j =
            ⟨mkGenRequest topic roles numTurns d t j lang ::
                (generateNextTurn (specGenerateServer gen) topic roles numTurns lang fuel'
                  (d ++ [⟨roles.getD j "", gen (mkGenRequest topic roles numTurns d t j lang)⟩])
                  (t + 1) 0).requests,
              (generateNextTurn (specGenerateServer gen) topic roles numTurns lang fuel'
                (d ++ [⟨roles.getD j "", gen (mkGenRequest topic roles numTurns d t j lang)⟩])
                (t + 1) 0).transcript,
              (generateNextTurn (specGenerateServer gen) topic roles numTurns lang fuel'
                (d ++ [⟨roles.getD j "", gen (mkGenRequest topic roles numTurns d t j lang)⟩])
                (t + 1) 0).status⟩ := by
          simp [generateNextTurn, specGenerateServer, nextCursor, mkGenRequest, hcase, hcomp]
        have hshift : ∀ i : Nat, (t + 1) * roles.length + 0 + i =
            t * roles.length + j + (i + 1) := by
          intro i
          have h3 : (t + 1) * roles.length = t * roles.length + roles.length := by ring
          omega
        have heq : numTurns * roles.length =
            (t + 1) * roles.length + 0 + (k' + 1) := by
          rw [hshift (k' + 1)]
          omega
        obtain ⟨ih1, ih2, ih3, ih4, ih5, ih6, ih7⟩ := ih (t + 1) 0
          (d ++ [⟨roles.getD j "", gen (mkGenRequest topic roles numTurns d t j lang)⟩])
          fuel' _ hR heq (by omega) (by omega) rfl
        subst hres
        rw [hstep]
        refine ⟨ih1, by simpa using ih2, ?_, ?_, ?_, ?_, ?_⟩
        · simp only [List.length_append, List.length_cons, List.length_nil] at ih3
          simp only []
          omega
        · intro i hi
          cases i with
          | zero =>
            refine ⟨by simpa [mkGenRequest] using hj, by simp [mkGenRequest],
              by simp [mkGenRequest]⟩
          | succ i =>
            obtain ⟨hA, hB, hC⟩ := ih4 i (by omega)
            simp only [List.getD_cons_succ]
            simp only [List.length_append, List.length_cons, List.length_nil] at hC
            have hsh := hshift i
            exact ⟨hA, by omega, by omega⟩
        · intro i hi
          have hlt : i < (d ++ [(⟨roles.getD j "",
              gen (mkGenRequest topic roles numTurns d t j lang)⟩ : Utterance)]).length := by
            simp only [List.length_append, List.length_cons, List.length_nil]
            omega
          simp only []
          rw [ih5 i hlt]
          exact List.getD_append _ _ _ _ hi
        · intro i hi
          cases i with
          | zero =>
            have hpref := ih5 d.length (by
              simp only [List.length_append, List.length_cons, List.length_nil]
              omega)
            simp only [Nat.add_zero]
            rw [hpref, List.getD_append_right _ _ _ _ le_rfl]
            simp only [Nat.sub_self, List.getD_cons_zero]
            rw [modArith hj]
          | succ i =>
            have hrole := ih6 i (by omega)
            simp only [List.length_append, List.length_cons, List.length_nil] at hrole
            rw [hshift i] at hrole
            have harr : d.length + (i + 1) = d.length + 1 + i := by omega
            simp only []
            rw [harr]
            exact hrole
        · intro i hi
          cases i with
          | zero =>
            simp only [List.getD_cons_zero]
            have hval : respComplete (specGenerateServer gen
                (mkGenRequest topic roles numTurns d t j lang)) =
                decide (numTurns ≤ t + 1) := by
              simp [specGenerateServer, respComplete, nextCursor, mkGenRequest, hcase]
            rw [hval, hcomp]
            exact (decide_eq_false (by omega)).symm
          | succ i =>
            simp only [List.getD_cons_succ]
            rw [ih7 i (by omega)]
            exact decide_eq_decide.mpr (by omega)

/-- C1: a fresh run against the spec-modelled endpoint, with every step
succeeding, issues exactly `numTurns × roleCount` sequential requests;
the i-th request (0-based) carries progress index
`currentTurn × roleCount + currentRoleIndex = i` (so the displayed index
`i + 1` runs from 1 to R × T); exactly one utterance is appended per
response (transcript length equals request count); roles cycle in roster
order; and the response reports `is_complete = true` exactly on the
(R × T)-th step, where the loop stops. -/
theorem C1_fresh_run_issues_RT_steps (gen : GenRequest → String)
    (topic lang : String) (roles : List String) (numTurns fuel : Nat)
    (hR : 2 ≤ roles.length) (hT : 1 ≤ numTurns)
    (hfuel : numTurns * roles.length ≤ fuel) :
    (generateNextTurn (specGenerateServer gen) topic roles numTurns lang
        fuel [] 0 0).status = .completed ∧
    (generateNextTurn (specGenerateServer gen) topic roles numTurns lang
        fuel [] 0 0).requests.length = numTurns * roles.length ∧
    (generateNextTurn (specGenerateServer gen) topic roles numTurns lang
        fuel [] 0 0).transcript.length = numTurns * roles.length ∧
    (∀ i, i < numTurns * roles.length →
      ((generateNextTurn (specGenerateServer gen) topic roles numTurns lang
          fuel [] 0 0).requests.getD i dummyGenReq).currentTurn * roles.length +
        ((generateNextTurn (specGenerateServer gen) topic roles numTurns lang
          fuel [] 0 0).requests.getD i dummyGenReq).currentRoleIndex = i ∧
      ((generateNextTurn (specGenerateServer gen) topic roles numTurns lang
          fuel [] 0 0).requests.getD i dummyGenReq).currentRoleIndex < roles.length ∧
      ((generateNextTurn (specGenerateServer gen) topic roles numTurns lang
          fuel [] 0 0).requests.getD i dummyGenReq).discussion.length = i) ∧
    (∀ i, i < numTurns * roles.length →
      ((generateNextTurn (specGenerateServer gen) topic roles numTurns lang
          fuel [] 0 0).transcript.getD i dummyUtt).role =
        roles.getD (i % roles.length) "") ∧
    (∀ i, i < numTurns * roles.length →
      respComplete (specGenerateServer gen
        ((generateNextTurn (specGenerateServer gen) topic roles numTurns lang
          fuel [] 0 0).requests.getD i dummyGenReq)) =
        decide (i + 1 = numTurns * roles.length)) := by
  have hRpos : 0 < roles.length := by omega
  have hkpos : 1 ≤ numTurns * roles.length := Nat.mul_pos (by omega) hRpos
  obtain ⟨a1, a2, a3, a4, a5, a6, a7⟩ := specGenerateRun_aux gen topic roles numTurns
    lang (numTurns * roles.length) 0 0 [] fuel _ hRpos (by omega) hkpos hfuel rfl
  refine ⟨a1, a2, by simpa using a3, ?_, ?_, a7⟩
  · intro i hi
    obtain ⟨hA, hB, hC⟩ := a4 i hi
    refine ⟨by omega, hA, by simpa using hC⟩
  · intro i hi
    have := a6 i hi
    simpa using this


/-- Witness for C1: a 2-role, 2-turn fresh run completes in exactly 4
steps with role-cycling utterances. -/
theorem C1_fresh_run_issues_RT_steps_witness :
    (generateNextTurn (specGenerateServer (fun _ => "発言します。")) "新製品"
        ["営業部長", "開発責任者"] 2 "ja" 4 [] 0 0).status = .completed ∧
    (generateNextTurn (specGenerateServer (fun _ => "発言します。")) "新製品"
        ["営業部長", "開発責任者"] 2 "ja" 4 [] 0 0).requests.length = 2 * 2 ∧
    (generateNextTurn (specGenerateServer (fun _ => "発言します。")) "新製品"
        ["営業部長", "開発責任者"] 2 "ja" 4 [] 0 0).transcript.length = 2 * 2 ∧
    ((generateNextTurn (specGenerateServer (fun _ => "発言します。")) "新製品"
        ["営業部長", "開発責任者"] 2 "ja" 4 [] 0 0).transcript.getD 3 dummyUtt).role =
      ["営業部長", "開発責任者"].getD (3 % 2) "" ∧
    respComplete (specGenerateServer (fun _ => "発言します。")
        ((generateNextTurn (specGenerateServer (fun _ => "発言します。")) "新製品"
          ["営業部長", "開発責任者"] 2 "ja" 4 [] 0 0).requests.getD 3 dummyGenReq)) =
      decide (3 + 1 = 2 * 2) :=
  have h := C1_fresh_run_issues_RT_steps (fun _ => "発言します。") "新製品" "ja"
    ["営業部長", "開発責任者"] 2 4 (by decide) (by decide) (by decide)
  ⟨h.1, h.2.1, h.2.2.1, h.2.2.2.2.1 3 (by decide), h.2.2.2.2.2 3 (by decide)⟩


/-! ## Claim C10: escaping precedes markdown substitution -/

theorem splitLines_subset : ∀ (l : List Char), ∀ part ∈ splitLines l,
    ∀ c ∈ part, c ∈ l := by
  intro l
  induction l with
  | nil => intro part hp c hc; simp [splitLines] at hp; subst hp; simp at hc
  | cons x rest ih =>
    intro part hp c hc
    by_cases hx : x = '\n'
    · rw [splitLines] at hp
      simp only [hx, if_pos rfl] at hp
      rcases List.mem_cons.mp hp with h | h
      · subst h; simp at hc
      · exact List.mem_cons_of_mem _ (ih part (by simpa [hx] using h) c hc)
    · rw [splitLines] at hp
      simp only [if_neg hx] at hp
      revert hp
      cases hsp : splitLines rest with
      | nil =>
        intro hp
        simp at hp
        subst hp
        simp at hc
        simp [hc]
      | cons l0 ls =>
        intro hp
        rcases List.mem_cons.mp hp with h | h
        · subst h
          rcases List.mem_cons.mp hc with h2 | h2
          · simp [h2]
          · exact List.mem_cons_of_mem _ (ih l0 (by simp [hsp]) c h2)
        · exact List.mem_cons_of_mem _ (ih part (by simp [hsp, h]) c hc)

theorem joinLines_subset : ∀ (parts : List (List Char)) (c : Char),
    c ∈ joinLines parts → (∃ p ∈ parts, c ∈ p) ∨ c = '\n' := by
  intro parts
  induction parts with
  | nil => intro c hc; simp [joinLines] at hc
  | cons l ls ih =>
    intro c hc
    cases ls with
    | nil =>
      simp only [joinLines] at hc
      exact Or.inl ⟨l, by simp, hc⟩
    | cons l2 ls2 =>
      simp only [joinLines] at hc
      rcases List.mem_append.mp hc with h | h
      · exact Or.inl ⟨l, by simp, h⟩
      · rcases List.mem_cons.mp h with h2 | h2
        · exact Or.inr h2
        · rcases ih c h2 with ⟨p, hp, hcp⟩ | h3
          · exact Or.inl ⟨p, List.mem_cons_of_mem _ hp, hcp⟩
          · exact Or.inr h3

theorem mapLines_subset (f : List Char → List Char) (T : List Char)
    (hf : ∀ line c, c ∈ f line → c ∈ line ∨ c ∈ T) :
    ∀ (s : List Char) (c : Char), c ∈ mapLines f s → c ∈ s ∨ c ∈ '\n' :: T := by
  intro s c hc
  rcases joinLines_subset _ c hc with ⟨p, hp, hcp⟩ | h
  · obtain ⟨line, hline, rfl⟩ := List.mem_map.mp hp
    rcases hf line c hcp with h2 | h2
    · exact Or.inl (splitLines_subset s line hline c h2)
    · exact Or.inr (List.mem_cons_of_mem _ h2)
  · exact Or.inr (by simp [h])

theorem lineRule_subset (pre openT closeT : List Char) :
    ∀ (line : List Char) (c : Char), c ∈ lineRule pre openT closeT line →
      c ∈ line ∨ c ∈ openT ++ closeT := by
  intro line c hc
  rw [lineRule] at hc
  split at hc
  · rcases List.mem_append.mp hc with h | h
    · rcases List.mem_append.mp h with h2 | h2
      · exact Or.inr (List.mem_append.mpr (Or.inl h2))
      · exact Or.inl (List.mem_of_mem_drop h2)
    · exact Or.inr (List.mem_append.mpr (Or.inr h))
  · exact Or.inl hc

theorem findClose_subset {close : List Char} {bad : Char → Bool} :
    ∀ {l content after : List Char},
      findClose close bad l = some (content, after) →
      (∀ c ∈ content, c ∈ l) ∧ (∀ c ∈ after, c ∈ l) := by
  intro l
  induction l with
  | nil => intro content after h; simp [findClose] at h
  | cons x rest ih =>
    intro content after h
    rw [findClose] at h
    split at h
    · rw [Option.some.injEq, Prod.mk.injEq] at h
      obtain ⟨h1, h2⟩ := h
      subst h1
      subst h2
      exact ⟨fun c hc => absurd hc (List.not_mem_nil c),
        fun c hc => List.mem_of_mem_drop hc⟩
    · split at h
      · exact absurd h (by simp)
      · revert h
        cases hrec : findClose close bad rest with
        | some pr =>
          obtain ⟨content2, after2⟩ := pr
          intro h
          rw [Option.some.injEq, Prod.mk.injEq] at h
          obtain ⟨h1, h2⟩ := h
          subst h1
          subst h2
          obtain ⟨ih1, ih2⟩ := ih hrec
          refine ⟨fun c hc => ?_, fun c hc => List.mem_cons_of_mem _ (ih2 c hc)⟩
          rcases List.mem_cons.mp hc with h2 | h2
          · simp [h2]
          · exact List.mem_cons_of_mem _ (ih1 c h2)
        | none => intro h; simp at h


theorem pairRuleGo_subset (opn close : List Char) (bad : Char → Bool)
    (minLen : Nat) (openT closeT : List Char) :
    ∀ (fuel : Nat) (l : List Char) (c : Char),
      c ∈ pairRuleGo opn close bad minLen openT closeT fuel l →
      c ∈ l ∨ c ∈ openT ++ closeT := by
  intro fuel
  induction fuel with
  | zero => intro l c hc; exact Or.inl (by simpa [pairRuleGo] using hc)
  | succ fuel ih =>
    intro l c hc
    cases l with
    | nil => simp [pairRuleGo] at hc
    | cons x rest =>
      rw [pairRuleGo] at hc
      split at hc
      · split at hc
        · rename_i content tail hfc
          split at hc
          · rcases List.mem_append.mp hc with h | h
            · rcases List.mem_append.mp h with h | h
              · rcases List.mem_append.mp h with h | h
                · exact Or.inr (List.mem_append.mpr (Or.inl h))
                · exact Or.inl (List.mem_of_mem_drop ((findClose_subset hfc).1 c h))
              · exact Or.inr (List.mem_append.mpr (Or.inr h))
            · rcases ih tail c h with h2 | h2
              · exact Or.inl (List.mem_of_mem_drop ((findClose_subset hfc).2 c h2))
              · exact Or.inr h2
          · rcases List.mem_cons.mp hc with h | h
            · exact Or.inl (by simp [h])
            · rcases ih rest c h with h2 | h2
              · exact Or.inl (List.mem_cons_of_mem _ h2)
              · exact Or.inr h2
        · rcases List.mem_cons.mp hc with h | h
          · exact Or.inl (by simp [h])
          · rcases ih rest c h with h2 | h2
            · exact Or.inl (List.mem_cons_of_mem _ h2)
            · exact Or.inr h2
      · rcases List.mem_cons.mp hc with h | h
        · exact Or.inl (by simp [h])
        · rcases ih rest c h with h2 | h2
          · exact Or.inl (List.mem_cons_of_mem _ h2)
          · exact Or.inr h2

theorem pairRule_subset (opn close : List Char) (bad : Char → Bool)
    (minLen : Nat) (openT closeT : List Char) :
    ∀ (l : List Char) (c : Char),
      c ∈ pairRule opn close bad minLen openT closeT l →
      c ∈ l ∨ c ∈ openT ++ closeT := by
  intro l c hc
  exact pairRuleGo_subset opn close bad minLen openT closeT l.length l c hc

theorem literalRuleGo_subset (pat repl : List Char) :
    ∀ (fuel : Nat) (l : List Char) (c : Char),
      c ∈ literalRuleGo pat repl fuel l → c ∈ l ∨ c ∈ repl := by
  intro fuel
  induction fuel with
  | zero => intro l c hc; exact Or.inl (by simpa [literalRuleGo] using hc)
  | succ fuel ih =>
    intro l c hc
    cases l with
    | nil => simp [literalRuleGo] at hc
    | cons x rest =>
      rw [literalRuleGo] at hc
      split at hc
      · rcases List.mem_append.mp hc with h | h
        · exact Or.inr h
        · rcases ih _ c h with h2 | h2
          · exact Or.inl (List.mem_of_mem_drop h2)
          · exact Or.inr h2
      · rcases List.mem_cons.mp hc with h | h
        · exact Or.inl (by simp [h])
        · rcases ih rest c h with h2 | h2
          · exact Or.inl (List.mem_cons_of_mem _ h2)
          · exact Or.inr h2

theorem literalRule_subset (pat repl : List Char) :
    ∀ (l : List Char) (c : Char),
      c ∈ literalRule pat repl l → c ∈ l ∨ c ∈ repl := by
  intro l c hc
  exact literalRuleGo_subset pat repl l.length l c hc

theorem wrapOlLine_subset :
    ∀ (line : List Char) (c : Char), c ∈ wrapOlLine line →
      c ∈ line ∨ c ∈ "<ol>".data ++ "</ol>".data := by
  intro line c hc
  rw [wrapOlLine] at hc
  split at hc
  · split at hc
    · rcases List.mem_append.mp hc with h | h
      · rcases List.mem_append.mp h with h | h
        · rcases List.mem_append.mp h with h | h
          · rcases List.mem_append.mp h with h | h
            · exact Or.inl (List.mem_of_mem_take h)
            · exact Or.inr (List.mem_append.mpr (Or.inl h))
          · exact Or.inl (List.mem_of_mem_drop (List.mem_of_mem_take h))
        · exact Or.inr (List.mem_append.mpr (Or.inr h))
      · exact Or.inl (List.mem_of_mem_drop h)
    · exact Or.inl hc
  · exact Or.inl hc

theorem hrLine_subset :
    ∀ (line : List Char) (c : Char), c ∈ hrLine line →
      c ∈ line ∨ c ∈ "<hr>".data := by
  intro line c hc
  rw [hrLine] at hc
  split at hc
  · exact Or.inr hc
  · exact Or.inl hc

theorem orderedItemLine_subset :
    ∀ (line : List Char) (c : Char), c ∈ orderedItemLine line →
      c ∈ line ∨ c ∈ "<li>".data ++ "</li>".data := by
  intro line c hc
  rw [orderedItemLine] at hc
  split at hc
  · rcases List.mem_append.mp hc with h | h
    · rcases List.mem_append.mp h with h | h
      · exact Or.inr (List.mem_append.mpr (Or.inl h))
      · exact Or.inl (List.mem_of_mem_drop h)
    · exact Or.inr (List.mem_append.mpr (Or.inr h))
  · exact Or.inl hc


theorem or_step {l A T2 : List Char} {c : Char} (h : c ∈ A ∨ c ∈ T2)
    (hT : ∀ x ∈ T2, x ∈ templateChars)
    (k : c ∈ A → c ∈ l ∨ c ∈ templateChars) :
    c ∈ l ∨ c ∈ templateChars :=
  h.elim k (fun hx => Or.inr (hT c hx))

theorem mdSubst_subset : ∀ (l : List Char) (c : Char),
    c ∈ mdSubst l → c ∈ l ∨ c ∈ templateChars := by
  intro l c hc
  simp only [mdSubst] at hc
  obtain ⟨c', hc', hifc⟩ := List.mem_flatMap.mp hc
  by_cases hnl : c' = '\n'
  · rw [if_pos hnl] at hifc
    exact Or.inr ((by decide : ∀ x ∈ "<br>".data, x ∈ templateChars) c hifc)
  · rw [if_neg hnl] at hifc
    rw [List.mem_singleton] at hifc
    subst hifc
    exact
      or_step (mapLines_subset _ _ hrLine_subset _ c hc') (by decide)
        (fun hc' =>
        or_step (mapLines_subset _ _ (lineRule_subset _ _ _) _ c hc') (by decide)
          (fun hc' =>
          or_step (mapLines_subset _ _ (lineRule_subset _ _ _) _ c hc') (by decide)
            (fun hc' =>
            or_step (mapLines_subset _ _ (lineRule_subset _ _ _) _ c hc') (by decide)
              (fun hc' =>
              or_step (mapLines_subset _ _ wrapOlLine_subset _ c hc') (by decide)
                (fun hc' =>
                or_step (literalRule_subset _ _ _ c hc') (by decide)
                  (fun hc' =>
                  or_step (mapLines_subset _ _ orderedItemLine_subset _ c hc') (by decide)
                    (fun hc' =>
                    or_step (pairRule_subset _ _ _ _ _ _ _ c hc') (by decide)
                      (fun hc' =>
                      or_step (pairRule_subset _ _ _ _ _ _ _ c hc') (by decide)
                        (fun hc' =>
                        or_step (pairRule_subset _ _ _ _ _ _ _ c hc') (by decide)
                          (fun hc' =>
                          or_step (pairRule_subset _ _ _ _ _ _ _ c hc') (by decide)
                            (fun hc' =>
                            or_step (mapLines_subset _ _ (lineRule_subset _ _ _) _ c hc') (by decide)
                              (fun hc' =>
                              or_step (mapLines_subset _ _ (lineRule_subset _ _ _) _ c hc') (by decide)
                                (fun hc' =>
                                or_step (mapLines_subset _ _ (lineRule_subset _ _ _) _ c hc') (by decide)
                                  (fun hc' =>
                                  Or.inl hc'))))))))))))))


theorem escapeChar_no_delims : ∀ (c' c : Char), c ∈ escapeChar c' →
    ¬(c = '<' ∨ c = '>' ∨ c = '"' ∨ c = '\'') := by
  intro c' c hc
  rw [escapeChar] at hc
  split_ifs at hc with h1 h2 h3 h4 h5
  · intro hd
    rcases hd with rfl | rfl | rfl | rfl <;> exact absurd hc (by decide)
  · intro hd
    rcases hd with rfl | rfl | rfl | rfl <;> exact absurd hc (by decide)
  · intro hd
    rcases hd with rfl | rfl | rfl | rfl <;> exact absurd hc (by decide)
  · intro hd
    rcases hd with rfl | rfl | rfl | rfl <;> exact absurd hc (by decide)
  · intro hd
    rcases hd with rfl | rfl | rfl | rfl <;> exact absurd hc (by decide)
  · rw [List.mem_singleton] at hc
    subst hc
    rintro (h | h | h | h)
    · exact h2 h
    · exact h3 h
    · exact h4 h
    · exact h5 h

/-- C10: `escapeHtml` replaces every HTML-delimiter character by its
entity, so its output contains no literal `<`, `>`, `"` or `'`;
`markdownToHtml` of a missing or empty value is the empty string (and so
is `escapeHtml` of a missing value in the part_004 revision);
`markdownToHtml` escapes the whole input first and only then runs the
markdown substitution chain over the escaped text; consequently every
character of the rendered output comes either from the escaped text or
from a fixed substitution template, and in particular no `"` or `'`
survives anywhere in the rendered output — no character of the original
content ever appears as an unescaped HTML delimiter. -/
theorem C10_escaping_precedes_markdown :
    (∀ (s : String) (c : Char), c ∈ (escapeHtml s).data →
      ¬(c = '<' ∨ c = '>' ∨ c = '"' ∨ c = '\'')) ∧
    markdownToHtml none = "" ∧
    markdownToHtml (some "") = "" ∧
    escapeHtmlChecked none = "" ∧
    (∀ s : String, s ≠ "" →
      (markdownToHtml (some s)).data = mdSubst (escapeHtml s).data) ∧
    (∀ (s : String) (c : Char), c ∈ (markdownToHtml (some s)).data →
      c ∈ (escapeHtml s).data ∨ c ∈ templateChars) ∧
    (∀ (s : String) (c : Char), c ∈ (markdownToHtml (some s)).data →
      c ≠ '"' ∧ c ≠ '\'') := by
  have hesc : ∀ (s : String) (c : Char), c ∈ (escapeHtml s).data →
      ¬(c = '<' ∨ c = '>' ∨ c = '"' ∨ c = '\'') := by
    intro s c hc
    rw [escapeHtml] at hc
    obtain ⟨c', _, hcc⟩ := List.mem_flatMap.mp hc
    exact escapeChar_no_delims c' c hcc
  have hstruct : ∀ s : String, s ≠ "" →
      (markdownToHtml (some s)).data = mdSubst (escapeHtml s).data := by
    intro s hs
    rw [markdownToHtml, if_neg hs]
  have hsub : ∀ (s : String) (c : Char), c ∈ (markdownToHtml (some s)).data →
      c ∈ (escapeHtml s).data ∨ c ∈ templateChars := by
    intro s c hc
    by_cases hs : s = ""
    · subst hs
      rw [markdownToHtml] at hc
      simp at hc
    · rw [hstruct s hs] at hc
      exact mdSubst_subset _ c hc
  refine ⟨hesc, rfl, rfl, rfl, hstruct, hsub, ?_⟩
  intro s c hc
  rcases hsub s c hc with h | h
  · have hno := hesc s c h
    exact ⟨fun he => hno (Or.inr (Or.inr (Or.inl he))),
      fun he => hno (Or.inr (Or.inr (Or.inr he)))⟩
  · constructor
    · intro he
      subst he
      exact absurd h (by decide)
    · intro he
      subst he
      exact absurd h (by decide)

/-- Witness for C10 at concrete strings containing markdown triggers and
every delimiter character. -/
theorem C10_escaping_precedes_markdown_witness :
    (¬('&' = '<' ∨ '&' = '>' ∨ '&' = '"' ∨ '&' = '\'')) ∧
    markdownToHtml none = "" ∧
    (markdownToHtml (some "x<y")).data = mdSubst (escapeHtml "x<y").data ∧
    ('m' ∈ (escapeHtml "&").data ∨ 'm' ∈ templateChars) ∧
    ('g' ≠ '"' ∧ 'g' ≠ '\'') :=
  ⟨C10_escaping_precedes_markdown.1 "<" '&' (by decide),
   C10_escaping_precedes_markdown.2.1,
   C10_escaping_precedes_markdown.2.2.2.2.1 "x<y" (by decide),
   C10_escaping_precedes_markdown.2.2.2.2.2.1 "&" 'm' (by decide),
   C10_escaping_precedes_markdown.2.2.2.2.2.2 "**a\"b**" 'g' (by decide)⟩


/-- Witness for the amended C9 at a concrete submission and a concrete
interaction sequence. -/
theorem C9_roster_size_amended_witness :
    2 ≤ (["営業部長", "開発責任者"] : List String).length ∧
    (2 ≤ (applyRoleOps ["営業部長", "開発責任者"]
        [RoleOp.add "経理部長", RoleOp.remove 0]).length ∧
      (applyRoleOps ["営業部長", "開発責任者"]
        [RoleOp.add "経理部長", RoleOp.remove 0]).length ≤ 6) :=
  ⟨C9_roster_size_amended.1 "新製品" 3 ["営業部長", "開発責任者"] "新製品"
      ["営業部長", "開発責任者"] 3 (by decide),
   C9_roster_size_amended.2.1 ["営業部長", "開発責任者"]
      [RoleOp.add "経理部長", RoleOp.remove 0] (by decide) (by decide)⟩

end Sentinel
